import Mathlib

/-!
Verification of the SimRacing fleet-coordination and navigation-execution
engine against its specification.

The development shallowly embeds the relevant Python source:

* namespace `Client`: the template-navigation engine of
  `SimRacingClient/src/utils/screen_navigator.py` together with the data
  model of `SimRacingClient/src/utils/data_model.py`, and the machine state
  of `SimRacingClient/src/utils/setup_state.py`.
* namespace `Orch`: the slot registry and the two-phase multiplayer start of
  `SimRacingController/orchestrator.py`.
* namespace `SpecNav`: a cancellation-aware navigation engine modelled from
  the specification, because the cancellation-aware variant of
  `screen_navigator.py` that `launcher.py` invokes (it passes the keyword
  arguments `cancel_event` and `context`) is not part of the source tree;
  only its caller is.

Screen capture and template correlation (the MatchProbe collaborator) are
abstracted as an oracle assigning a rational confidence score to each probe;
the oracle is indexed by a counter of probes performed so far, so that the
observed screen may change over time. Key presses, probes and sleeps are
recorded in an event trace; the trace is ghost instrumentation that records
exactly the externally visible calls the Python code makes
(`pydirectinput.press`, `match_template_at_position`, `time.sleep`).
-/

namespace Client

/-- Key payloads: the Python `key_press` and `press_until_match` fields hold
either a single key string or a list of key strings. -/
inductive Keys where
  | single (k : String)
  | seq (ks : List String)
deriving DecidableEq

/-- One candidate match within a step; mirrors the Pydantic model
`StepOption` of `data_model.py` (fields `template`, `region`, `key_press`,
`press_until_match`, and the per-option delay overrides). -/
structure StepOption where
  template : String
  region : List ℚ
  key_press : Option Keys
  press_until_match : Option Keys
  retry_delay : Option ℚ
  action_delay : Option ℚ
deriving DecidableEq

/-- A navigation step: a non-empty (by schema) list of options; mirrors
`Step` of `data_model.py`. -/
structure Step where
  options : List StepOption
deriving DecidableEq

/-- A sequence of steps; mirrors `NavigationSequence` of `data_model.py`. -/
structure NavigationSequence where
  steps : List Step
deriving DecidableEq

/-- Execution parameters bound to one sequence; mirrors `NavigationConfig`
of `data_model.py` (the deferred-loading fields are not needed here, the
sequence is taken as already resolved). -/
structure NavigationConfig where
  template_dir : String
  template_threshold : ℚ
  max_retries : Nat
  retry_delay : ℚ
  action_delay : ℚ
  search_margin : ℚ
  matching_method : String
  navigation_sequence : NavigationSequence

/-- OpenCV template-matching methods accepted by
`get_cv2_matching_method` in `screen_navigator.py`. -/
inductive MatchMethod where
  | ccoeff_normed
  | ccorr_normed
  | sqdiff_normed
  | ccoeff
  | ccorr
  | sqdiff
deriving DecidableEq

/-- Mirrors `get_cv2_matching_method`: translate a method name to the cv2
constant, raising (here: `none`) on an unknown name. -/
def get_cv2_matching_method (name : String) : Option MatchMethod :=
  if name = "TM_CCOEFF_NORMED" then some MatchMethod.ccoeff_normed
  else if name = "TM_CCORR_NORMED" then some MatchMethod.ccorr_normed
  else if name = "TM_SQDIFF_NORMED" then some MatchMethod.sqdiff_normed
  else if name = "TM_CCOEFF" then some MatchMethod.ccoeff
  else if name = "TM_CCORR" then some MatchMethod.ccorr
  else if name = "TM_SQDIFF" then some MatchMethod.sqdiff
  else none

/-- Match oracle: given the number of probes performed so far and the full
template path, the confidence score the screen yields. This abstracts
`match_template_at_position` (screenshot plus correlation), which is the
out-of-scope MatchProbe collaborator. -/
def Oracle : Type := Nat → String → ℚ

/-- Trace events: template probes, key presses and sleeps, tagged with the
step index and option index they were issued for. -/
inductive NavEvent where
  | probe (step opt : Nat) (template : String) (score : ℚ)
  | press (step opt : Nat) (key : String)
  | sleep (d : ℚ)
deriving DecidableEq

/-- The step index an event belongs to (`none` for sleeps). -/
def evStep : NavEvent → Option Nat
  | NavEvent.probe s _ _ _ => some s
  | NavEvent.press s _ _ => some s
  | NavEvent.sleep _ => none

/-- The option index an event belongs to (`none` for sleeps). -/
def evOpt : NavEvent → Option Nat
  | NavEvent.probe _ o _ _ => some o
  | NavEvent.press _ o _ => some o
  | NavEvent.sleep _ => none

/-- Mirrors the `key_mapping` dictionary of `execute_key_presses`. -/
def key_mapping (k : String) : String :=
  if k = "down_arrow" then "down"
  else if k = "up_arrow" then "up"
  else if k = "left_arrow" then "left"
  else if k = "right_arrow" then "right"
  else if k = "esc" then "escape"
  else k

/-- Presses of a list of keys with the inter-press delay of
`execute_key_presses` (a delay after each press except the last). -/
def pressSeq (stepIdx optIdx : Nat) (action_delay : ℚ) : List String → List NavEvent
  | [] => []
  | [k] => [NavEvent.press stepIdx optIdx (key_mapping k)]
  | k :: k2 :: rest =>
      NavEvent.press stepIdx optIdx (key_mapping k) :: NavEvent.sleep action_delay ::
        pressSeq stepIdx optIdx action_delay (k2 :: rest)

/-- Mirrors `execute_key_presses`: nothing for `None`, one press for a
string, and for a list an initial sleep then the presses with delays in
between. -/
def execute_key_presses (stepIdx optIdx : Nat) (kp : Option Keys) (action_delay : ℚ) :
    List NavEvent :=
  match kp with
  | none => []
  | some (Keys.single k) => [NavEvent.press stepIdx optIdx (key_mapping k)]
  | some (Keys.seq ks) => NavEvent.sleep action_delay :: pressSeq stepIdx optIdx action_delay ks

/-- Mirrors `navigate_if_template_matches`: probe first; when the score
reaches the threshold, perform the action. Returns whether it matched, the
advanced probe counter, and the emitted events. -/
def navigate_if_template_matches (oracle : Oracle) (t stepIdx optIdx : Nat) (path : String)
    (kp : Option Keys) (threshold action_delay : ℚ) : Bool × Nat × List NavEvent :=
  let sc := oracle t path
  if threshold ≤ sc then
    (true, t + 1, NavEvent.probe stepIdx optIdx path sc ::
      execute_key_presses stepIdx optIdx kp action_delay)
  else
    (false, t + 1, [NavEvent.probe stepIdx optIdx path sc])

/-- Mirrors `navigate_press_until_match`: press first, sleep `action_delay`,
then probe. -/
def navigate_press_until_match (oracle : Oracle) (t stepIdx optIdx : Nat) (path : String)
    (kp : Keys) (threshold action_delay : ℚ) : Bool × Nat × List NavEvent :=
  let pevs := execute_key_presses stepIdx optIdx (some kp) action_delay
  let sc := oracle t path
  (decide (threshold ≤ sc), t + 1,
    pevs ++ [NavEvent.sleep action_delay, NavEvent.probe stepIdx optIdx path sc])

/-- Body of the option loop of `attempt_step_options`: for a
press-until-match option call `navigate_press_until_match` (BRANCH 1 of the
source, press before check), otherwise call `navigate_if_template_matches`
(BRANCH 2, check then press). -/
def evalOption (oracle : Oracle) (t stepIdx optIdx : Nat) (template_dir : String)
    (o : StepOption) (threshold action_delay : ℚ) : Bool × Nat × List NavEvent :=
  match o.press_until_match with
  | some kp =>
      navigate_press_until_match oracle t stepIdx optIdx (template_dir ++ "/" ++ o.template) kp
        threshold action_delay
  | none =>
      navigate_if_template_matches oracle t stepIdx optIdx (template_dir ++ "/" ++ o.template)
        o.key_press threshold action_delay

/-- Inner loop of `attempt_step_options` over the options of one attempt:
each option in listed order; the first option that succeeds ends the
attempt (the Python code then sleeps `retry_delay` and returns). The first
component is the index of the winning option, if any. -/
def tryOptions (oracle : Oracle) (stepIdx : Nat) (template_dir : String)
    (threshold retry_delay action_delay : ℚ) :
    Nat → Nat → List StepOption → Option Nat × Nat × List NavEvent
  | _, t, [] => (none, t, [])
  | j, t, o :: rest =>
      let r := evalOption oracle t stepIdx j template_dir o threshold action_delay
      if r.1 then (some j, r.2.1, r.2.2 ++ [NavEvent.sleep retry_delay])
      else
        let r2 := tryOptions oracle stepIdx template_dir threshold retry_delay action_delay
          (j + 1) r.2.1 rest
        (r2.1, r2.2.1, r.2.2 ++ r2.2.2)

/-- Outer retry loop of `attempt_step_options`: up to `max_retries` rounds
over the options; after a failed round that is not the last the code sleeps
the config-level `retry_delay` (the per-option override fields are never
consulted by the source). -/
def attemptLoop (oracle : Oracle) (stepIdx : Nat) (stepData : Step) (template_dir : String)
    (threshold retry_delay action_delay : ℚ) : Nat → Nat → Bool × Nat × List NavEvent
  | t, 0 => (false, t, [])
  | t, n + 1 =>
      let r := tryOptions oracle stepIdx template_dir threshold retry_delay action_delay 0 t
        stepData.options
      match r.1 with
      | some _ => (true, r.2.1, r.2.2)
      | none =>
          if n = 0 then (false, r.2.1, r.2.2)
          else
            let r2 := attemptLoop oracle stepIdx stepData template_dir threshold retry_delay
              action_delay r.2.1 n
            (r2.1, r2.2.1, r.2.2 ++ NavEvent.sleep retry_delay :: r2.2.2)

/-- Mirrors `attempt_step_options`. -/
def attempt_step_options (oracle : Oracle) (t stepIdx : Nat) (stepData : Step)
    (template_dir : String) (threshold : ℚ) (max_retries : Nat) (retry_delay action_delay : ℚ) :
    Bool × Nat × List NavEvent :=
  attemptLoop oracle stepIdx stepData template_dir threshold retry_delay action_delay t
    max_retries

/-- Mirrors `handle_step_failure`: with no previous step (index 0) report a
failure at once; otherwise retry the previous step with the
`previous_step_retries` budget, and only when it matches retry the current
step with the full `max_retries` budget; success returns `(true, 0)`, any
other outcome `(false, cf + 1)`. The previous step is handed in as an
`Option` (the caller passes `none` exactly for step index 0). -/
def handle_step_failure (oracle : Oracle) (t stepIdx : Nat) (prevOpt : Option Step)
    (stepData : Step) (cf : Nat) (template_dir : String) (threshold : ℚ)
    (max_retries previous_step_retries : Nat) (retry_delay action_delay : ℚ) :
    (Bool × Nat) × Nat × List NavEvent :=
  match prevOpt with
  | none => ((false, cf + 1), t, [])
  | some prev =>
      let r1 := attempt_step_options oracle t (stepIdx - 1) prev template_dir threshold
        previous_step_retries retry_delay action_delay
      if r1.1 then
        let r2 := attempt_step_options oracle r1.2.1 stepIdx stepData template_dir threshold
          max_retries retry_delay action_delay
        if r2.1 then ((true, 0), r2.2.1, r1.2.2 ++ r2.2.2)
        else ((false, cf + 1), r2.2.1, r1.2.2 ++ r2.2.2)
      else ((false, cf + 1), r1.2.1, r1.2.2)

/-- Result of running a sequence: the boolean outcome, the final probe
counter, the event trace, and (ghost) the per-step resolution outcomes in
the order the steps were attempted (`true` when the step ended resolved,
first-attempt or recovered). -/
structure ExecRes where
  result : Bool
  t : Nat
  events : List NavEvent
  outcomes : List Bool
deriving DecidableEq

/-- Loop body of `execute_navigation_sequence`: attempt each step; on
failure run `handle_step_failure`; two consecutive unresolved steps abort
with `False`; each completed iteration sleeps `action_delay`. -/
def execSeq (oracle : Oracle) (template_dir : String) (threshold : ℚ) (max_retries : Nat)
    (retry_delay : ℚ) (previous_step_retries : Nat) (action_delay : ℚ) :
    Nat → Nat → Option Step → Nat → List Step → ExecRes
  | t, _, _, _, [] => ⟨true, t, [], []⟩
  | t, i, prev, cf, stepData :: rest =>
      let a := attempt_step_options oracle t i stepData template_dir threshold max_retries
        retry_delay action_delay
      if a.1 then
        let r := execSeq oracle template_dir threshold max_retries retry_delay
          previous_step_retries action_delay a.2.1 (i + 1) (some stepData) 0 rest
        ⟨r.result, r.t, a.2.2 ++ NavEvent.sleep action_delay :: r.events, true :: r.outcomes⟩
      else
        let h := handle_step_failure oracle a.2.1 i prev stepData cf template_dir threshold
          max_retries previous_step_retries retry_delay action_delay
        if h.1.1 then
          let r := execSeq oracle template_dir threshold max_retries retry_delay
            previous_step_retries action_delay h.2.1 (i + 1) (some stepData) h.1.2 rest
          ⟨r.result, r.t, a.2.2 ++ h.2.2 ++ NavEvent.sleep action_delay :: r.events,
            true :: r.outcomes⟩
        else
          if 2 ≤ h.1.2 then ⟨false, h.2.1, a.2.2 ++ h.2.2, [false]⟩
          else
            let r := execSeq oracle template_dir threshold max_retries retry_delay
              previous_step_retries action_delay h.2.1 (i + 1) (some stepData) h.1.2 rest
            ⟨r.result, r.t, a.2.2 ++ h.2.2 ++ NavEvent.sleep action_delay :: r.events,
              false :: r.outcomes⟩

/-- Mirrors `execute_navigation_sequence` (entered with step index 0, no
previous step, zero consecutive failures). -/
def execute_navigation_sequence (oracle : Oracle) (steps : List Step) (template_dir : String)
    (threshold : ℚ) (max_retries : Nat) (retry_delay : ℚ) (previous_step_retries : Nat)
    (action_delay : ℚ) : ExecRes :=
  execSeq oracle template_dir threshold max_retries retry_delay previous_step_retries
    action_delay 0 0 none 0 steps

/-- Mirrors `load_and_execute_navigation`: an empty step list fails at once
(before the matching method is even resolved); an unknown matching method
raises (`none`); otherwise the sequence runs with the config parameters and
the default `previous_step_retries = 3` that the source leaves at its
default. -/
def load_and_execute_navigation (oracle : Oracle) (nav_config : NavigationConfig)
    (template_base_dir : String) : Option ExecRes :=
  let sequence := nav_config.navigation_sequence
  if sequence.steps = [] then some ⟨false, 0, [], []⟩
  else
    match get_cv2_matching_method nav_config.matching_method with
    | none => none
    | some _ =>
        let template_dir := template_base_dir ++ "/" ++ nav_config.template_dir
        some (execute_navigation_sequence oracle sequence.steps template_dir
          nav_config.template_threshold nav_config.max_retries nav_config.retry_delay 3
          nav_config.action_delay)

end Client

namespace Client

/-- An oracle whose screen never matches anything. -/
def oracleZero : Oracle := fun _ _ => 0

/-- An oracle whose screen always matches everything perfectly. -/
def oracleOne : Oracle := fun _ _ => 1

/-- Failing input for the per-option retry-delay override: a single-option
step whose option carries the override `retry_delay = 3` while the config
level retry delay is `1`. -/
def overrideOption : StepOption :=
  ⟨"a.png", [0, 0, 1, 1], none, none, some 3, none⟩

/-- The step holding `overrideOption`. -/
def overrideStep : Step := ⟨[overrideOption]⟩

/-- A concrete configuration with an empty navigation sequence. -/
def cfgEmpty : NavigationConfig :=
  ⟨"F1_22", 1, 2, 1, 1, 1, "TM_CCOEFF_NORMED", ⟨[]⟩⟩

/-- Scenario of spec section 8, Scenario B: an error-screen option, tried
first. -/
def optErr : StepOption := ⟨"err.png", [0, 0, 1, 1], some (Keys.single "enter"), none, none, none⟩

/-- Scenario of spec section 8, Scenario B: the normal-screen option, tried
second. -/
def optOk : StepOption := ⟨"ok.png", [0, 0, 1, 1], some (Keys.single "enter"), none, none, none⟩

/-- An oracle under which only the template `d/ok.png` matches. -/
def oracleOkOnly : Oracle := fun _ p => if p = "d/ok.png" then 1 else 0

/-- Invariant of the step loop of `execute_navigation_sequence`, relating
the boolean result, the ghost per-step outcome list and the event trace of
a run that starts at step index `i` with `cf` consecutive failures and
`nsteps` steps left: success visits every remaining step; failure happens
exactly on two trailing unresolved steps (or one, when a failure was
already pending); an inner unresolved pair ends the run at once; and every
event belongs to a step between `i - 1` and the last attempted one. -/
def SeqInv (nsteps i cf : Nat) (R : ExecRes) : Prop :=
  (R.result = true → R.outcomes.length = nsteps) ∧
  (R.result = false →
    (∃ l0, R.outcomes = l0 ++ [false, false]) ∨ (R.outcomes = [false] ∧ cf = 1)) ∧
  (∀ m, R.outcomes[m]? = some false → R.outcomes[m + 1]? = some false →
    ∃ l0, R.outcomes = l0 ++ [false, false] ∧ l0.length = m) ∧
  ((∃ l0, R.outcomes = l0 ++ [false, false]) → R.result = false) ∧
  (∀ e s, e ∈ R.events → evStep e = some s → i ≤ s + 1 ∧ s + 1 ≤ i + R.outcomes.length) ∧
  (cf = 1 → R.outcomes[0]? = some false → R.outcomes = [false] ∧ R.result = false)

/-- Status values of `setup_state.py` (the `Status` literal type). -/
inductive Status where
  | idle
  | configured
  | starting
  | running
deriving DecidableEq

/-- The fields of `SetupState` in `setup_state.py`. Locking is not modelled:
every operation is a single critical section in the source, so operations
act atomically on this record. -/
structure SetupState where
  status : Status
  current_game : Option String
  session_id : Option String
  role : Option String
  player_count : Option Int
  host_ip : Option String
deriving DecidableEq

/-- The initial state built by `SetupState.__init__`. -/
def SetupState.init : SetupState := ⟨Status.idle, none, none, none, none, none⟩

/-- Mirrors `SetupState.configure`: sets every field and moves the status to
configured. -/
def SetupState.configure (s : SetupState) (game session_id role : String)
    (player_count : Option Int) (host_ip : Option String) : SetupState :=
  ⟨Status.configured, some game, some session_id, some role, player_count, host_ip⟩

/-- Mirrors `SetupState.set_status`: swaps only the status field. -/
def SetupState.set_status (s : SetupState) (st : Status) : SetupState :=
  { s with status := st }

/-- Mirrors `SetupState.reset`: clears everything back to idle. -/
def SetupState.reset (s : SetupState) : SetupState := SetupState.init

/-- States reachable from the initial state through any sequence of the
three public mutators of `setup_state.py`. -/
inductive ReachableState : SetupState → Prop where
  | init : ReachableState SetupState.init
  | cfg : ∀ {s : SetupState} (game session_id role : String) (pc : Option Int)
      (hip : Option String), ReachableState s →
      ReachableState (s.configure game session_id role pc hip)
  | setSt : ∀ {s : SetupState} (st : Status), ReachableState s →
      ReachableState (s.set_status st)
  | rst : ∀ {s : SetupState}, ReachableState s → ReachableState s.reset

/-- States reachable through `configure` and `reset` alone (the restriction
under which the claimed invariant does hold). -/
inductive ReachableCR : SetupState → Prop where
  | init : ReachableCR SetupState.init
  | cfg : ∀ {s : SetupState} (game session_id role : String) (pc : Option Int)
      (hip : Option String), ReachableCR s →
      ReachableCR (s.configure game session_id role pc hip)
  | rst : ∀ {s : SetupState}, ReachableCR s → ReachableCR s.reset

end Client

namespace Orch

/-- Heartbeat payload as validated by the `Heartbeat` Pydantic model of
`orchestrator.py`; timestamps are rationals. -/
structure Heartbeat where
  name : String
  id : Int
  status : String
  session_id : Option String
  current_game : Option String
  last_seen : ℚ
  timestamp : ℚ
deriving DecidableEq

/-- Mirrors `SetupRegistration` (the mDNS `properties` dict carries nothing
the claims need and is dropped). -/
structure SetupRegistration where
  name : String
  address : String
  port : Nat
  heartbeat : Option Heartbeat
deriving DecidableEq

/-- The `address:port` string used as setup id (`Slot.get_setup_id`). -/
def regId (r : SetupRegistration) : String := r.address ++ ":" ++ toString r.port

/-- The orchestrator state: the `SLOTS` table (meaningful on slots 1..4,
each holding at most one registration) and the `SETUP_TO_SLOT` lookup
map. -/
structure OrchState where
  slots : Nat → Option SetupRegistration
  setupToSlot : String → Option Nat

/-- Mirrors `Slot.get_setup_id` for the slot table. -/
def get_setup_id (st : OrchState) (n : Nat) : Option String := (st.slots n).map regId

/-- The condition of the fallback loop in `assign_setup_to_slot`:
`SLOTS[i].setup is None or SLOTS[i].get_setup_id() == setup_id`. -/
def slotFreeOrOwn (st : OrchState) (setup_id : String) (n : Nat) : Bool :=
  (st.slots n).isNone || (get_setup_id st n == some setup_id)

/-- The `for i in range(1, 5)` fallback of `assign_setup_to_slot`: the first
slot in 1..4 that is free or already this machine's. -/
def findFreeSlot (st : OrchState) (setup_id : String) : Option Nat :=
  if slotFreeOrOwn st setup_id 1 then some 1
  else if slotFreeOrOwn st setup_id 2 then some 2
  else if slotFreeOrOwn st setup_id 3 then some 3
  else if slotFreeOrOwn st setup_id 4 then some 4
  else none

/-- Mirrors `assign_setup_to_slot`: no heartbeat means no assignment; a
machine id within 1..4 is used directly as the slot number (with no check
of the current occupant); any other id falls back to the first free-or-own
slot; on assignment both the slot table and the lookup map are updated. -/
def assign_setup_to_slot (st : OrchState) (setup_id : String) (setup : SetupRegistration) :
    Option Nat × OrchState :=
  match setup.heartbeat with
  | none => (none, st)
  | some hb =>
      let slotNumOpt : Option Nat :=
        if 1 ≤ hb.id ∧ hb.id ≤ 4 then some hb.id.toNat
        else findFreeSlot st setup_id
      match slotNumOpt with
      | none => (none, st)
      | some n =>
          (some n,
            ⟨fun m => if m = n then some setup else st.slots m,
              fun s2 => if s2 = setup_id then some n else st.setupToSlot s2⟩)

/-- The tail of `receive_heartbeat`: HTTP 200 with `received` when a slot
number came back, HTTP 503 with `no_slot_available` otherwise. -/
def heartbeat_reply (slotNum : Option Nat) : Nat × String :=
  match slotNum with
  | some _ => (200, "received")
  | none => (503, "no_slot_available")

/-- Mirrors `Slot.is_online`: a heartbeat younger than 15 seconds. -/
def is_online (st : OrchState) (n : Nat) (now : ℚ) : Bool :=
  match st.slots n with
  | none => false
  | some reg =>
      match reg.heartbeat with
      | none => false
      | some hb => now - hb.last_seen < 15

/-- The slot enumeration of `get_setups`: the four slots in table order
with their online flag. -/
def get_setups (st : OrchState) (now : ℚ) : List (Nat × Bool) :=
  [1, 2, 3, 4].map (fun n => (n, is_online st n now))

/-- Outcome of one remote HTTP call: OK, a non-OK response, or a
`RequestException`. -/
inductive CallOutcome where
  | ok
  | httpError (msg : String)
  | commError (msg : String)
deriving DecidableEq

/-- One itemized entry of the `results` list of `start_multiplayer`. -/
structure SlotResult where
  slot : Nat
  role : String
  status : String
deriving DecidableEq

/-- Output of phase 1 of `start_multiplayer`: the failure entries appended
to `results`, the `configured_slots` list of (slot, setup id, role), and
(ghost) the per-iteration role assignments in request order. -/
structure Phase1Out where
  results : List SlotResult
  configured : List (Nat × String × String)
  assignments : List (Nat × String)
deriving DecidableEq

/-- Phase 1 of `start_multiplayer`: configure each requested slot in order;
the slot at position 0 is configured as host, every other as join; an OK
response adds the slot to `configured_slots`, otherwise an itemized
failure entry is appended. The session id, player count and host ip of the
payload do not influence control flow and are not modelled. -/
def phase1 (st : OrchState) (configureRes : Nat → CallOutcome) :
    List Nat → Nat → Phase1Out
  | [], _ => ⟨[], [], []⟩
  | s :: rest, i =>
      let role := if i = 0 then "host" else "join"
      let r := phase1 st configureRes rest (i + 1)
      match configureRes s with
      | CallOutcome.ok =>
          ⟨r.results, (s, (get_setup_id st s).getD "", role) :: r.configured,
            (s, role) :: r.assignments⟩
      | CallOutcome.httpError _ =>
          ⟨⟨s, role, "failed_configure"⟩ :: r.results, r.configured,
            (s, role) :: r.assignments⟩
      | CallOutcome.commError _ =>
          ⟨⟨s, role, "error_configure"⟩ :: r.results, r.configured,
            (s, role) :: r.assignments⟩

/-- Phase 2 of `start_multiplayer`: send `start` to every configured slot,
collecting per-slot results independently. -/
def phase2 (startRes : Nat → CallOutcome) : List (Nat × String × String) → List SlotResult
  | [] => []
  | c :: rest =>
      (match startRes c.1 with
        | CallOutcome.ok => (⟨c.1, c.2.2, "success"⟩ : SlotResult)
        | CallOutcome.httpError _ => ⟨c.1, c.2.2, "failed_start"⟩
        | CallOutcome.commError _ => ⟨c.1, c.2.2, "error_start"⟩) :: phase2 startRes rest

/-- The three response shapes of `start_multiplayer`: a 400 validation
error, the 400 abort after a partial phase 1, and the final aggregate. -/
inductive MPResponse where
  | badRequest (msg : String)
  | abortPhase1 (configured_count total : Nat) (results : List SlotResult)
  | completed (success_count : Nat) (results : List SlotResult)
deriving DecidableEq

/-- Result of `start_multiplayer` plus ghost observations: `started` lists
the slots that were actually sent a `start` command, `assignments` the
phase-1 role decisions. -/
structure MPOut where
  response : MPResponse
  started : List Nat
  assignments : List (Nat × String)
deriving DecidableEq

/-- The validation loop of `start_multiplayer`: the first slot that is not
in `SLOTS` or not online produces the 400 error. -/
def validateSlots (st : OrchState) (now : ℚ) : List Nat → Option String
  | [] => none
  | s :: rest =>
      if ¬ (1 ≤ s ∧ s ≤ 4) then some ("Invalid slot number: " ++ toString s)
      else if ¬ is_online st s now then some ("Slot " ++ toString s ++ " is not online")
      else validateSlots st now rest

/-- The `success_count` aggregation of `start_multiplayer`. -/
def countSuccess (results : List SlotResult) : Nat :=
  (results.filter (fun r => r.status == "success")).length

/-- Mirrors `start_multiplayer`: reject requests of fewer than two slots,
validate every slot, run phase 1 (configure), abort entirely when not
every slot was configured, and only then run phase 2 (start). -/
def start_multiplayer (st : OrchState) (now : ℚ) (slot_numbers : List Nat)
    (configureRes startRes : Nat → CallOutcome) : MPOut :=
  if slot_numbers.length < 2 then
    ⟨MPResponse.badRequest "Multiplayer requires at least 2 slots", [], []⟩
  else
    match validateSlots st now slot_numbers with
    | some msg => ⟨MPResponse.badRequest msg, [], []⟩
    | none =>
        let p := phase1 st configureRes slot_numbers 0
        if p.configured.length < slot_numbers.length then
          ⟨MPResponse.abortPhase1 p.configured.length slot_numbers.length p.results, [],
            p.assignments⟩
        else
          ⟨MPResponse.completed (countSuccess (p.results ++ phase2 startRes p.configured))
              (p.results ++ phase2 startRes p.configured),
            p.configured.map Prod.fst, p.assignments⟩

/-- The machine id carried in a registration's heartbeat. -/
def machineIdOf (r : SetupRegistration) : Option Int := r.heartbeat.map (fun hb => hb.id)

/-- A heartbeat with the given machine id. -/
def hbId (n : Int) : Heartbeat := ⟨"m", n, "idle", none, none, 0, 0⟩

/-- Machine with id 1, bound to slot 1. -/
def regA : SetupRegistration := ⟨"m1", "10.0.0.1", 5000, some (hbId 1)⟩

/-- Machine with id 3, bound to slot 3. -/
def regC : SetupRegistration := ⟨"m3", "10.0.0.3", 5000, some (hbId 3)⟩

/-- The fleet with machines 1 and 3 online in slots 1 and 3. -/
def st13 : OrchState :=
  ⟨fun n => if n = 1 then some regA else if n = 3 then some regC else none,
    fun s => if s = "10.0.0.1:5000" then some 1
      else if s = "10.0.0.3:5000" then some 3 else none⟩

/-- A remote side that answers OK to everything. -/
def allOk : Nat → CallOutcome := fun _ => CallOutcome.ok

/-- A remote side whose configure fails on slot 3 with a non-OK response. -/
def failOn3 : Nat → CallOutcome :=
  fun n => if n = 3 then CallOutcome.httpError "boom" else CallOutcome.ok

/-- Machine with id 2 occupying slot 2. -/
def regB : SetupRegistration := ⟨"m2", "10.0.0.2", 5000, some (hbId 2)⟩

/-- A different machine (other address) also claiming id 2. -/
def regB9 : SetupRegistration := ⟨"m9", "10.0.0.9", 5000, some (hbId 2)⟩

/-- A machine with the out-of-range id 7. -/
def regSeven : SetupRegistration := ⟨"m7", "10.0.0.7", 5000, some (hbId 7)⟩

/-- State in which slot 2 is occupied by `regB` and the rest are free. -/
def occSt : OrchState :=
  ⟨fun n => if n = 2 then some regB else none,
    fun s => if s = "10.0.0.2:5000" then some 2 else none⟩

/-- State in which every slot is occupied by `regB`. -/
def fullSt : OrchState :=
  ⟨fun n => if 1 ≤ n ∧ n ≤ 4 then some regB else none,
    fun s => if s = "10.0.0.2:5000" then some 1 else none⟩

/-- The empty registry. -/
def emptySt : OrchState := ⟨fun _ => none, fun _ => none⟩

end Orch

namespace SpecNav

/-- Modelled from the spec: the tri-state outcome of a navigation run
(success, ordinary failure, cancelled), the failure form distinguishable
from cancellation that spec section 7 requires at every return boundary.
The cancellation-aware navigation engine that `launcher.py` invokes (it
passes `cancel_event` and `context` into `load_and_execute_navigation`) is
missing from the source tree, so this namespace models it from the
specification text. -/
inductive NavResult where
  | success
  | failure
  | cancelled
deriving DecidableEq

/-- Modelled from the spec: the outcome of one step attempt loop. -/
inductive AttemptOut where
  | matched
  | noMatch
  | cancelled
deriving DecidableEq

/-- Modelled from the spec: observable events of the cancellation-aware
engine; `stepBegin` and `attemptBegin` record the cancellation polls (with
the poll counter value read), `probe` and `press` the interactions of spec
section 4.1. -/
inductive SEvent where
  | stepBegin (step t : Nat)
  | attemptBegin (step t : Nat)
  | probe (step : Nat) (template : String) (score : ℚ)
  | press (step : Nat) (key : String)
deriving DecidableEq

/-- Modelled from the spec: the level-triggered cancellation flag, read at
each poll; indexed by the engine's poll-and-probe counter so the flag may
be raised at any point of the run. -/
def Cancel : Type := Nat → Bool

/-- Modelled from the spec: the presses of a key sequence (the
ActionExecutor collaborator). -/
def pressEvs (stepIdx : Nat) : Client.Keys → List SEvent
  | Client.Keys.single k => [SEvent.press stepIdx k]
  | Client.Keys.seq ks => ks.map (SEvent.press stepIdx)

/-- Modelled from the spec: presses for an optional key field (`NoAction`
presses nothing). -/
def pressOpt (stepIdx : Nat) : Option Client.Keys → List SEvent
  | none => []
  | some kp => pressEvs stepIdx kp

/-- Modelled from the spec, section 4.1: evaluate the options of one step
in listed order; a `PressUntilMatch` option performs its action first and
then probes, a `PressKeys` or `NoAction` option probes first and acts only
on a match at or above the threshold; the first succeeding option wins. -/
def tryOptionsS (oracle : Client.Oracle) (θ : ℚ) (tdir : String) (stepIdx : Nat) :
    Nat → List Client.StepOption → Bool × Nat × List SEvent
  | t, [] => (false, t, [])
  | t, o :: rest =>
      match o.press_until_match with
      | some kp =>
          if θ ≤ oracle t (tdir ++ "/" ++ o.template) then
            (true, t + 1, pressEvs stepIdx kp ++
              [SEvent.probe stepIdx (tdir ++ "/" ++ o.template)
                (oracle t (tdir ++ "/" ++ o.template))])
          else
            let r := tryOptionsS oracle θ tdir stepIdx (t + 1) rest
            (r.1, r.2.1, pressEvs stepIdx kp ++
              SEvent.probe stepIdx (tdir ++ "/" ++ o.template)
                (oracle t (tdir ++ "/" ++ o.template)) :: r.2.2)
      | none =>
          if θ ≤ oracle t (tdir ++ "/" ++ o.template) then
            (true, t + 1, SEvent.probe stepIdx (tdir ++ "/" ++ o.template)
                (oracle t (tdir ++ "/" ++ o.template)) :: pressOpt stepIdx o.key_press)
          else
            let r := tryOptionsS oracle θ tdir stepIdx (t + 1) rest
            (r.1, r.2.1, SEvent.probe stepIdx (tdir ++ "/" ++ o.template)
                (oracle t (tdir ++ "/" ++ o.template)) :: r.2.2)

/-- Result of an attempt loop in the spec-modelled engine. -/
structure ARes where
  out : AttemptOut
  t : Nat
  events : List SEvent
deriving DecidableEq

/-- Modelled from the spec, sections 4.1 and 4.1 Cancellation: the attempt
loop of `attempt_step_options` with the cooperative cancellation signal
checked at the start of every attempt; when the signal is set the engine
stops immediately with the cancelled outcome. -/
def attemptS (oracle : Client.Oracle) (cancel : Cancel) (θ : ℚ) (tdir : String)
    (stepIdx : Nat) (sd : Client.Step) : Nat → Nat → ARes
  | t, 0 => ⟨AttemptOut.noMatch, t, []⟩
  | t, fuel + 1 =>
      if cancel t then ⟨AttemptOut.cancelled, t + 1, [SEvent.attemptBegin stepIdx t]⟩
      else
        let r := tryOptionsS oracle θ tdir stepIdx (t + 1) sd.options
        if r.1 then ⟨AttemptOut.matched, r.2.1, SEvent.attemptBegin stepIdx t :: r.2.2⟩
        else if fuel = 0 then
          ⟨AttemptOut.noMatch, r.2.1, SEvent.attemptBegin stepIdx t :: r.2.2⟩
        else
          let r2 := attemptS oracle cancel θ tdir stepIdx sd r.2.1 fuel
          ⟨r2.out, r2.t, SEvent.attemptBegin stepIdx t :: r.2.2 ++ r2.events⟩

/-- Modelled from the spec, section 4.1 step-failure recovery: retry step
i - 1 with the `previousStepRetries` budget; only when it matches retry
step i once more with the full `maxRetries` budget; cancellation observed
during either attempt propagates. -/
def recoverS (oracle : Client.Oracle) (cancel : Cancel) (θ : ℚ) (tdir : String)
    (maxR prevR : Nat) (i : Nat) (p sd : Client.Step) (t : Nat) : ARes :=
  let r1 := attemptS oracle cancel θ tdir (i - 1) p t prevR
  match r1.out with
  | AttemptOut.cancelled => ⟨AttemptOut.cancelled, r1.t, r1.events⟩
  | AttemptOut.noMatch => ⟨AttemptOut.noMatch, r1.t, r1.events⟩
  | AttemptOut.matched =>
      let r2 := attemptS oracle cancel θ tdir i sd r1.t maxR
      ⟨r2.out, r2.t, r1.events ++ r2.events⟩

/-- Result of the spec-modelled sequence run. -/
structure SRes where
  result : NavResult
  t : Nat
  events : List SEvent
deriving DecidableEq

/-- Modelled from the spec, sections 4.1 and 8 P3: the step loop of the
cancellation-aware `execute_navigation_sequence`: the cancellation signal
is checked at the start of every step (and, through `attemptS`, at the
start of every attempt); if set the engine stops at once with the
cancelled result; otherwise the step is attempted, recovery runs on
failure, and two consecutive unresolved steps abort with the ordinary
failure result. -/
def execS (oracle : Client.Oracle) (cancel : Cancel) (θ : ℚ) (tdir : String)
    (maxR prevR : Nat) : Nat → Nat → Option Client.Step → Nat → List Client.Step → SRes
  | t, _, _, _, [] => ⟨NavResult.success, t, []⟩
  | t, i, prev, cf, sd :: rest =>
      if cancel t then ⟨NavResult.cancelled, t + 1, [SEvent.stepBegin i t]⟩
      else
        let a := attemptS oracle cancel θ tdir i sd (t + 1) maxR
        match a.out with
        | AttemptOut.cancelled =>
            ⟨NavResult.cancelled, a.t, SEvent.stepBegin i t :: a.events⟩
        | AttemptOut.matched =>
            let r := execS oracle cancel θ tdir maxR prevR a.t (i + 1) (some sd) 0 rest
            ⟨r.result, r.t, SEvent.stepBegin i t :: a.events ++ r.events⟩
        | AttemptOut.noMatch =>
            match prev with
            | none =>
                if 2 ≤ cf + 1 then
                  ⟨NavResult.failure, a.t, SEvent.stepBegin i t :: a.events⟩
                else
                  let r := execS oracle cancel θ tdir maxR prevR a.t (i + 1) (some sd)
                    (cf + 1) rest
                  ⟨r.result, r.t, SEvent.stepBegin i t :: a.events ++ r.events⟩
            | some p =>
                let h := recoverS oracle cancel θ tdir maxR prevR i p sd a.t
                match h.out with
                | AttemptOut.cancelled =>
                    ⟨NavResult.cancelled, h.t, SEvent.stepBegin i t :: a.events ++ h.events⟩
                | AttemptOut.matched =>
                    let r := execS oracle cancel θ tdir maxR prevR h.t (i + 1) (some sd) 0 rest
                    ⟨r.result, r.t, SEvent.stepBegin i t :: a.events ++ h.events ++ r.events⟩
                | AttemptOut.noMatch =>
                    if 2 ≤ cf + 1 then
                      ⟨NavResult.failure, h.t, SEvent.stepBegin i t :: a.events ++ h.events⟩
                    else
                      let r := execS oracle cancel θ tdir maxR prevR h.t (i + 1) (some sd)
                        (cf + 1) rest
                      ⟨r.result, r.t,
                        SEvent.stepBegin i t :: a.events ++ h.events ++ r.events⟩

/-- Modelled from the spec: entry point of the cancellation-aware run
(step index 0, no previous step, no pending failures, poll counter 0). -/
def execute_with_cancel (oracle : Client.Oracle) (cancel : Cancel) (θ : ℚ) (tdir : String)
    (maxR prevR : Nat) (steps : List Client.Step) : SRes :=
  execS oracle cancel θ tdir maxR prevR 0 0 none 0 steps

/-- The flag of a stop request issued before the run begins. -/
def cancelAlways : Cancel := fun _ => true

end SpecNav

-- ===================================================================
-- Definitions above, lemmas and claim theorems below this line.
-- ===================================================================

/-- C9: the claim says the sleep between failed attempts uses the
option-level `retry_delay` override when one is set. Evaluating
`attempt_step_options` at a step whose sole option carries the override
`retry_delay = 3` while the config-level retry delay is `1` shows the
engine sleeps `1` (the config value) between the two attempts: the override
field, although declared and documented in `data_model.py`, is never read
by `screen_navigator.py`. -/
theorem C9_override_ignored :
    Client.overrideOption.retry_delay = some 3 ∧
    Client.attempt_step_options Client.oracleZero 0 0 Client.overrideStep "d" 1 2 1 2 =
      (false, 2, [Client.NavEvent.probe 0 0 "d/a.png" 0, Client.NavEvent.sleep 1,
        Client.NavEvent.probe 0 0 "d/a.png" 0]) := by
  constructor
  · rfl
  · decide

/-- C10: a `NavigationConfig` whose sequence has no steps is rejected by
`load_and_execute_navigation` with result `false` and an empty trace (no
probe, no press), although `execute_navigation_sequence` applied directly
to an empty step list returns `true`: the empty sequence is rejected at the
public entry point rather than treated as a vacuous success. -/
theorem C10_empty_sequence_rejected (oracle : Client.Oracle) (cfg : Client.NavigationConfig)
    (base : String) (h : cfg.navigation_sequence.steps = []) :
    Client.load_and_execute_navigation oracle cfg base = some ⟨false, 0, [], []⟩ ∧
    ∀ tdir θ mr rd pr ad,
      Client.execute_navigation_sequence oracle [] tdir θ mr rd pr ad = ⟨true, 0, [], []⟩ := by
  constructor
  · simp [Client.load_and_execute_navigation, h]
  · intro tdir θ mr rd pr ad
    rfl

/-- Witness for C10 at the concrete empty configuration. -/
theorem C10_empty_sequence_rejected_witness :
    Client.load_and_execute_navigation Client.oracleZero Client.cfgEmpty "T" =
      some ⟨false, 0, [], []⟩ ∧
    Client.execute_navigation_sequence Client.oracleZero [] "T" 1 2 1 3 1 =
      ⟨true, 0, [], []⟩ := by
  have h := C10_empty_sequence_rejected Client.oracleZero Client.cfgEmpty "T" rfl
  exact ⟨h.1, h.2 "T" 1 2 1 3 1⟩

namespace Client

theorem pressSeq_mem {i j : Nat} {ad : ℚ} :
    ∀ {ks : List String} {e : NavEvent}, e ∈ pressSeq i j ad ks →
      (∃ key, e = NavEvent.press i j key) ∨ e = NavEvent.sleep ad
  | [], e, h => by simp [pressSeq] at h
  | [k], e, h => by
      simp only [pressSeq, List.mem_singleton] at h
      exact Or.inl ⟨key_mapping k, h⟩
  | k :: k2 :: rest, e, h => by
      simp only [pressSeq, List.mem_cons] at h
      rcases h with h | h | h
      · exact Or.inl ⟨key_mapping k, h⟩
      · exact Or.inr h
      · exact pressSeq_mem h

theorem execute_key_presses_mem {i j : Nat} {kp : Option Keys} {ad : ℚ} {e : NavEvent}
    (h : e ∈ execute_key_presses i j kp ad) :
    (∃ key, e = NavEvent.press i j key) ∨ e = NavEvent.sleep ad := by
  match kp with
  | none => simp [execute_key_presses] at h
  | some (Keys.single k) =>
      simp only [execute_key_presses, List.mem_singleton] at h
      exact Or.inl ⟨key_mapping k, h⟩
  | some (Keys.seq ks) =>
      simp only [execute_key_presses, List.mem_cons] at h
      rcases h with h | h
      · exact Or.inr h
      · exact pressSeq_mem h

theorem evalOption_pum_eq {oracle : Oracle} {t i j : Nat} {tdir : String} {o : StepOption}
    {θ ad : ℚ} {kp : Keys} (h : o.press_until_match = some kp) :
    evalOption oracle t i j tdir o θ ad =
      (decide (θ ≤ oracle t (tdir ++ "/" ++ o.template)), t + 1,
        execute_key_presses i j (some kp) ad ++
          [NavEvent.sleep ad, NavEvent.probe i j (tdir ++ "/" ++ o.template)
            (oracle t (tdir ++ "/" ++ o.template))]) := by
  simp [evalOption, h, navigate_press_until_match]

theorem evalOption_npum_true {oracle : Oracle} {t i j : Nat} {tdir : String} {o : StepOption}
    {θ ad : ℚ} (h : o.press_until_match = none)
    (hs : θ ≤ oracle t (tdir ++ "/" ++ o.template)) :
    evalOption oracle t i j tdir o θ ad =
      (true, t + 1, NavEvent.probe i j (tdir ++ "/" ++ o.template)
          (oracle t (tdir ++ "/" ++ o.template)) ::
        execute_key_presses i j o.key_press ad) := by
  simp [evalOption, h, navigate_if_template_matches, hs]

theorem evalOption_npum_false {oracle : Oracle} {t i j : Nat} {tdir : String} {o : StepOption}
    {θ ad : ℚ} (h : o.press_until_match = none)
    (hs : ¬ θ ≤ oracle t (tdir ++ "/" ++ o.template)) :
    evalOption oracle t i j tdir o θ ad =
      (false, t + 1, [NavEvent.probe i j (tdir ++ "/" ++ o.template)
        (oracle t (tdir ++ "/" ++ o.template))]) := by
  simp [evalOption, h, navigate_if_template_matches, hs]

theorem evalOption_events {oracle : Oracle} {t i j : Nat} {tdir : String} {o : StepOption}
    {θ ad : ℚ} {e : NavEvent} (h : e ∈ (evalOption oracle t i j tdir o θ ad).2.2) :
    (∃ key, e = NavEvent.press i j key) ∨ (∃ d, e = NavEvent.sleep d) ∨
      e = NavEvent.probe i j (tdir ++ "/" ++ o.template)
        (oracle t (tdir ++ "/" ++ o.template)) := by
  rcases ho : o.press_until_match with _ | kp
  · by_cases hs : θ ≤ oracle t (tdir ++ "/" ++ o.template)
    · rw [evalOption_npum_true ho hs] at h
      rcases List.mem_cons.mp h with h | h
      · exact Or.inr (Or.inr h)
      · rcases execute_key_presses_mem h with ⟨key, hk⟩ | hk
        · exact Or.inl ⟨key, hk⟩
        · exact Or.inr (Or.inl ⟨ad, hk⟩)
    · rw [evalOption_npum_false ho hs] at h
      simp only [List.mem_singleton] at h
      exact Or.inr (Or.inr h)
  · rw [evalOption_pum_eq ho] at h
    rcases List.mem_append.mp h with h | h
    · rcases execute_key_presses_mem h with ⟨key, hk⟩ | hk
      · exact Or.inl ⟨key, hk⟩
      · exact Or.inr (Or.inl ⟨ad, hk⟩)
    · rcases List.mem_cons.mp h with h | h
      · exact Or.inr (Or.inl ⟨ad, h⟩)
      · simp only [List.mem_singleton] at h
        exact Or.inr (Or.inr h)

theorem evalOption_opt_tag {oracle : Oracle} {t i j : Nat} {tdir : String} {o : StepOption}
    {θ ad : ℚ} {e : NavEvent} (h : e ∈ (evalOption oracle t i j tdir o θ ad).2.2) :
    evOpt e = none ∨ evOpt e = some j := by
  rcases evalOption_events h with ⟨key, hk⟩ | ⟨d, hk⟩ | hk <;> subst hk <;> simp [evOpt]

theorem evalOption_step_tag {oracle : Oracle} {t i j : Nat} {tdir : String} {o : StepOption}
    {θ ad : ℚ} {e : NavEvent} (h : e ∈ (evalOption oracle t i j tdir o θ ad).2.2) :
    evStep e = none ∨ evStep e = some i := by
  rcases evalOption_events h with ⟨key, hk⟩ | ⟨d, hk⟩ | hk <;> subst hk <;> simp [evStep]

end Client

namespace Client

theorem tryOptions_cons_true {oracle : Oracle} {i : Nat} {tdir : String} {θ rd ad : ℚ}
    {j t : Nat} {o : StepOption} {rest : List StepOption}
    (h : (evalOption oracle t i j tdir o θ ad).1 = true) :
    tryOptions oracle i tdir θ rd ad j t (o :: rest) =
      (some j, (evalOption oracle t i j tdir o θ ad).2.1,
        (evalOption oracle t i j tdir o θ ad).2.2 ++ [NavEvent.sleep rd]) := by
  simp [tryOptions, h]

theorem tryOptions_cons_false {oracle : Oracle} {i : Nat} {tdir : String} {θ rd ad : ℚ}
    {j t : Nat} {o : StepOption} {rest : List StepOption}
    (h : (evalOption oracle t i j tdir o θ ad).1 = false) :
    tryOptions oracle i tdir θ rd ad j t (o :: rest) =
      ((tryOptions oracle i tdir θ rd ad (j + 1) (evalOption oracle t i j tdir o θ ad).2.1
          rest).1,
        (tryOptions oracle i tdir θ rd ad (j + 1) (evalOption oracle t i j tdir o θ ad).2.1
          rest).2.1,
        (evalOption oracle t i j tdir o θ ad).2.2 ++
          (tryOptions oracle i tdir θ rd ad (j + 1) (evalOption oracle t i j tdir o θ ad).2.1
            rest).2.2) := by
  simp [tryOptions, h]

theorem tryOptions_opt_ge {oracle : Oracle} {i : Nat} {tdir : String} {θ rd ad : ℚ} :
    ∀ {opts : List StepOption} {j0 t : Nat} {e : NavEvent} {j2 : Nat},
      e ∈ (tryOptions oracle i tdir θ rd ad j0 t opts).2.2 → evOpt e = some j2 → j0 ≤ j2
  | [], j0, t, e, j2, hmem, _ => by simp [tryOptions] at hmem
  | o :: rest, j0, t, e, j2, hmem, htag => by
      cases hev : (evalOption oracle t i j0 tdir o θ ad).1 with
      | true =>
          rw [tryOptions_cons_true hev] at hmem
          rcases List.mem_append.mp hmem with h | h
          · rcases evalOption_opt_tag h with h2 | h2
            · rw [htag] at h2
              exact absurd h2 (by simp)
            · rw [htag] at h2
              have h3 : j2 = j0 := Option.some.inj h2
              omega
          · simp only [List.mem_singleton] at h
            subst h
            simp [evOpt] at htag
      | false =>
          rw [tryOptions_cons_false hev] at hmem
          rcases List.mem_append.mp hmem with h | h
          · rcases evalOption_opt_tag h with h2 | h2
            · rw [htag] at h2
              exact absurd h2 (by simp)
            · rw [htag] at h2
              have h3 : j2 = j0 := Option.some.inj h2
              omega
          · have h4 := tryOptions_opt_ge h htag
            omega

theorem tryOptions_step_tag {oracle : Oracle} {i : Nat} {tdir : String} {θ rd ad : ℚ} :
    ∀ {opts : List StepOption} {j0 t : Nat} {e : NavEvent} {s : Nat},
      e ∈ (tryOptions oracle i tdir θ rd ad j0 t opts).2.2 → evStep e = some s → s = i
  | [], j0, t, e, s, hmem, _ => by simp [tryOptions] at hmem
  | o :: rest, j0, t, e, s, hmem, htag => by
      cases hev : (evalOption oracle t i j0 tdir o θ ad).1 with
      | true =>
          rw [tryOptions_cons_true hev] at hmem
          rcases List.mem_append.mp hmem with h | h
          · rcases evalOption_step_tag h with h2 | h2
            · rw [htag] at h2
              exact absurd h2 (by simp)
            · rw [htag] at h2
              exact Option.some.inj h2
          · simp only [List.mem_singleton] at h
            subst h
            simp [evStep] at htag
      | false =>
          rw [tryOptions_cons_false hev] at hmem
          rcases List.mem_append.mp hmem with h | h
          · rcases evalOption_step_tag h with h2 | h2
            · rw [htag] at h2
              exact absurd h2 (by simp)
            · rw [htag] at h2
              exact Option.some.inj h2
          · exact tryOptions_step_tag h htag

theorem tryOptions_winner {oracle : Oracle} {i : Nat} {tdir : String} {θ rd ad : ℚ} :
    ∀ {opts : List StepOption} {j0 t : Nat} {j : Nat},
      (tryOptions oracle i tdir θ rd ad j0 t opts).1 = some j →
      j0 ≤ j ∧ ∀ {e : NavEvent} {j2 : Nat},
        e ∈ (tryOptions oracle i tdir θ rd ad j0 t opts).2.2 → evOpt e = some j2 → j2 ≤ j
  | [], j0, t, j, hw => by simp [tryOptions] at hw
  | o :: rest, j0, t, j, hw => by
      cases hev : (evalOption oracle t i j0 tdir o θ ad).1 with
      | true =>
          rw [tryOptions_cons_true hev] at hw
          have hj : j = j0 := (Option.some.inj hw.symm)
          subst hj
          refine ⟨Nat.le_refl j, ?_⟩
          intro e j2 hmem htag
          rw [tryOptions_cons_true hev] at hmem
          rcases List.mem_append.mp hmem with h | h
          · rcases evalOption_opt_tag h with h2 | h2
            · rw [htag] at h2
              exact absurd h2 (by simp)
            · rw [htag] at h2
              have h3 : j2 = j := Option.some.inj h2
              omega
          · simp only [List.mem_singleton] at h
            subst h
            simp [evOpt] at htag
      | false =>
          rw [tryOptions_cons_false hev] at hw
          have hrec := @tryOptions_winner oracle i tdir θ rd ad rest (j0 + 1)
            ((evalOption oracle t i j0 tdir o θ ad).2.1) _ hw
          refine ⟨by omega, ?_⟩
          intro e j2 hmem htag
          rw [tryOptions_cons_false hev] at hmem
          rcases List.mem_append.mp hmem with h | h
          · rcases evalOption_opt_tag h with h2 | h2
            · rw [htag] at h2
              exact absurd h2 (by simp)
            · rw [htag] at h2
              have h3 : j2 = j0 := Option.some.inj h2
              omega
          · exact hrec.2 h htag

end Client


namespace Client

theorem tryOptions_order {oracle : Oracle} {i : Nat} {tdir : String} {θ rd ad : ℚ} :
    ∀ {opts : List StepOption} {j0 t : Nat} {j : Nat} {tpl : String} {sc : ℚ},
      NavEvent.probe i j tpl sc ∈ (tryOptions oracle i tdir θ rd ad j0 t opts).2.2 →
      ∀ j2, j0 ≤ j2 → j2 < j →
      ∃ tpl2 sc2 l1 l2,
        (tryOptions oracle i tdir θ rd ad j0 t opts).2.2 =
          l1 ++ NavEvent.probe i j2 tpl2 sc2 :: l2 ∧
        NavEvent.probe i j tpl sc ∈ l2
  | [], j0, t, j, tpl, sc, hmem, _, _, _ => by simp [tryOptions] at hmem
  | o :: rest, j0, t, j, tpl, sc, hmem, j2, hle, hlt => by
      cases hev : (evalOption oracle t i j0 tdir o θ ad).1 with
      | true =>
          rw [tryOptions_cons_true hev] at hmem
          rcases List.mem_append.mp hmem with h | h
          · rcases evalOption_opt_tag h with h2 | h2
            · simp [evOpt] at h2
            · simp only [evOpt] at h2
              have h3 : j = j0 := Option.some.inj h2
              omega
          · simp only [List.mem_singleton] at h
            cases h
      | false =>
          rw [tryOptions_cons_false hev] at hmem
          rw [tryOptions_cons_false hev]
          rcases List.mem_append.mp hmem with h | h
          · rcases evalOption_opt_tag h with h2 | h2
            · simp [evOpt] at h2
            · simp only [evOpt] at h2
              have h3 : j = j0 := Option.some.inj h2
              omega
          · rcases Nat.lt_or_ge j2 (j0 + 1) with hj2 | hj2
            · have hj2e : j2 = j0 := by omega
              rw [hj2e]
              rcases ho : o.press_until_match with _ | kp
              · by_cases hs : θ ≤ oracle t (tdir ++ "/" ++ o.template)
                · rw [evalOption_npum_true ho hs] at hev
                  simp at hev
                · rw [evalOption_npum_false ho hs] at h ⊢
                  refine ⟨tdir ++ "/" ++ o.template, oracle t (tdir ++ "/" ++ o.template), [],
                    (tryOptions oracle i tdir θ rd ad (j0 + 1) (t + 1) rest).2.2, ?_, h⟩
                  simp
              · rw [evalOption_pum_eq ho] at h ⊢
                refine ⟨tdir ++ "/" ++ o.template, oracle t (tdir ++ "/" ++ o.template),
                  execute_key_presses i j0 (some kp) ad ++ [NavEvent.sleep ad],
                  (tryOptions oracle i tdir θ rd ad (j0 + 1) (t + 1) rest).2.2, ?_, h⟩
                simp
            · rcases tryOptions_order h j2 hj2 hlt with ⟨tpl2, sc2, l1, l2, heq, hmem2⟩
              refine ⟨tpl2, sc2, (evalOption oracle t i j0 tdir o θ ad).2.2 ++ l1, l2, ?_, hmem2⟩
              rw [heq, List.append_assoc]

end Client

namespace Client

theorem tryOptions_gate {oracle : Oracle} {i : Nat} {tdir : String} {θ rd ad : ℚ} :
    ∀ {opts : List StepOption} {j0 t n : Nat} {o : StepOption} {key : String},
      opts[n]? = some o → o.press_until_match = none →
      NavEvent.press i (j0 + n) key ∈ (tryOptions oracle i tdir θ rd ad j0 t opts).2.2 →
      ∃ sc, θ ≤ sc ∧ ∃ l1 l2,
        (tryOptions oracle i tdir θ rd ad j0 t opts).2.2 =
          l1 ++ NavEvent.probe i (j0 + n) (tdir ++ "/" ++ o.template) sc :: l2 ∧
        NavEvent.press i (j0 + n) key ∈ l2
  | [], j0, t, n, o, key, hget, _, hmem => by simp [tryOptions] at hmem
  | o0 :: rest, j0, t, 0, o, key, hget, hpum, hmem => by
      simp only [List.getElem?_cons_zero, Option.some.injEq] at hget
      subst hget
      cases hev : (evalOption oracle t i j0 tdir o0 θ ad).1 with
      | true =>
          by_cases hs : θ ≤ oracle t (tdir ++ "/" ++ o0.template)
          · rw [tryOptions_cons_true hev] at hmem
            rw [tryOptions_cons_true hev]
            rw [evalOption_npum_true hpum hs] at hmem ⊢
            refine ⟨oracle t (tdir ++ "/" ++ o0.template), hs, [],
              execute_key_presses i j0 o0.key_press ad ++ [NavEvent.sleep rd], by simp, ?_⟩
            rcases List.mem_append.mp hmem with h | h
            · rcases List.mem_cons.mp h with h2 | h2
              · cases h2
              · exact List.mem_append.mpr (Or.inl h2)
            · simp only [List.mem_singleton] at h
              cases h
          · rw [evalOption_npum_false hpum hs] at hev
            simp at hev
      | false =>
          rw [tryOptions_cons_false hev] at hmem
          rcases List.mem_append.mp hmem with h | h
          · by_cases hs : θ ≤ oracle t (tdir ++ "/" ++ o0.template)
            · rw [evalOption_npum_true hpum hs] at hev
              simp at hev
            · rw [evalOption_npum_false hpum hs] at h
              simp only [List.mem_singleton] at h
              cases h
          · have h4 := tryOptions_opt_ge h (show evOpt (NavEvent.press i (j0 + 0) key) =
              some (j0 + 0) from rfl)
            omega
  | o0 :: rest, j0, t, n + 1, o, key, hget, hpum, hmem => by
      simp only [List.getElem?_cons_succ] at hget
      cases hev : (evalOption oracle t i j0 tdir o0 θ ad).1 with
      | true =>
          rw [tryOptions_cons_true hev] at hmem
          rcases List.mem_append.mp hmem with h | h
          · rcases evalOption_opt_tag h with h2 | h2
            · simp [evOpt] at h2
            · simp only [evOpt] at h2
              have h3 : j0 + (n + 1) = j0 := Option.some.inj h2
              omega
          · simp only [List.mem_singleton] at h
            cases h
      | false =>
          rw [tryOptions_cons_false hev] at hmem
          rw [tryOptions_cons_false hev]
          rcases List.mem_append.mp hmem with h | h
          · rcases evalOption_opt_tag h with h2 | h2
            · simp [evOpt] at h2
            · simp only [evOpt] at h2
              have h3 : j0 + (n + 1) = j0 := Option.some.inj h2
              omega
          · have harith : j0 + (n + 1) = (j0 + 1) + n := by omega
            rw [harith] at h ⊢
            rcases tryOptions_gate hget hpum h with ⟨sc, hsc, l1, l2, heq, hmem2⟩
            refine ⟨sc, hsc, (evalOption oracle t i j0 tdir o0 θ ad).2.2 ++ l1, l2, ?_, hmem2⟩
            rw [heq, List.append_assoc]

end Client

namespace Client

theorem tryOptions_pum {oracle : Oracle} {i : Nat} {tdir : String} {θ rd ad : ℚ} :
    ∀ {opts : List StepOption} {j0 t n : Nat} {o : StepOption} {kp : Keys} {tpl : String}
      {sc : ℚ},
      opts[n]? = some o → o.press_until_match = some kp →
      NavEvent.probe i (j0 + n) tpl sc ∈ (tryOptions oracle i tdir θ rd ad j0 t opts).2.2 →
      ∃ l1 l2,
        (tryOptions oracle i tdir θ rd ad j0 t opts).2.2 =
          l1 ++ NavEvent.probe i (j0 + n) tpl sc :: l2 ∧
        ∀ key, NavEvent.press i (j0 + n) key ∈
            (tryOptions oracle i tdir θ rd ad j0 t opts).2.2 →
          NavEvent.press i (j0 + n) key ∈ l1
  | [], j0, t, n, o, kp, tpl, sc, hget, _, hmem => by simp [tryOptions] at hmem
  | o0 :: rest, j0, t, 0, o, kp, tpl, sc, hget, hpum, hmem => by
      simp only [List.getElem?_cons_zero, Option.some.injEq] at hget
      subst hget
      cases hev : (evalOption oracle t i j0 tdir o0 θ ad).1 with
      | true =>
          rw [tryOptions_cons_true hev] at hmem
          rw [tryOptions_cons_true hev]
          rw [evalOption_pum_eq hpum] at hmem ⊢
          have hprobe : (NavEvent.probe i (j0 + 0) tpl sc : NavEvent) =
              NavEvent.probe i j0 (tdir ++ "/" ++ o0.template)
                (oracle t (tdir ++ "/" ++ o0.template)) := by
            rcases List.mem_append.mp hmem with h | h
            · rcases List.mem_append.mp h with h2 | h2
              · rcases execute_key_presses_mem h2 with ⟨k2, hk⟩ | hk <;> cases hk
              · rcases List.mem_cons.mp h2 with h3 | h3
                · cases h3
                · simp only [List.mem_singleton] at h3
                  exact h3
            · simp only [List.mem_singleton] at h
              cases h
          rw [hprobe]
          refine ⟨execute_key_presses i j0 (some kp) ad ++ [NavEvent.sleep ad],
            [NavEvent.sleep rd], by simp, ?_⟩
          intro key hk
          rcases List.mem_append.mp hk with h | h
          · rcases List.mem_append.mp h with h2 | h2
            · exact List.mem_append.mpr (Or.inl h2)
            · rcases List.mem_cons.mp h2 with h3 | h3
              · cases h3
              · simp only [List.mem_singleton] at h3
                cases h3
          · simp only [List.mem_singleton] at h
            cases h
      | false =>
          rw [tryOptions_cons_false hev] at hmem
          rw [tryOptions_cons_false hev]
          rw [evalOption_pum_eq hpum] at hmem ⊢
          have hprobe : (NavEvent.probe i (j0 + 0) tpl sc : NavEvent) =
              NavEvent.probe i j0 (tdir ++ "/" ++ o0.template)
                (oracle t (tdir ++ "/" ++ o0.template)) := by
            rcases List.mem_append.mp hmem with h | h
            · rcases List.mem_append.mp h with h2 | h2
              · rcases execute_key_presses_mem h2 with ⟨k2, hk⟩ | hk <;> cases hk
              · rcases List.mem_cons.mp h2 with h3 | h3
                · cases h3
                · simp only [List.mem_singleton] at h3
                  exact h3
            · have h4 := tryOptions_opt_ge h (show evOpt (NavEvent.probe i (j0 + 0) tpl sc) =
                some (j0 + 0) from rfl)
              omega
          rw [hprobe]
          refine ⟨execute_key_presses i j0 (some kp) ad ++ [NavEvent.sleep ad],
            (tryOptions oracle i tdir θ rd ad (j0 + 1) (t + 1) rest).2.2, by simp, ?_⟩
          intro key hk
          rcases List.mem_append.mp hk with h | h
          · rcases List.mem_append.mp h with h2 | h2
            · exact List.mem_append.mpr (Or.inl h2)
            · rcases List.mem_cons.mp h2 with h3 | h3
              · cases h3
              · simp only [List.mem_singleton] at h3
                cases h3
          · have h4 := tryOptions_opt_ge h (show evOpt (NavEvent.press i (j0 + 0) key) =
              some (j0 + 0) from rfl)
            omega
  | o0 :: rest, j0, t, n + 1, o, kp, tpl, sc, hget, hpum, hmem => by
      simp only [List.getElem?_cons_succ] at hget
      cases hev : (evalOption oracle t i j0 tdir o0 θ ad).1 with
      | true =>
          rw [tryOptions_cons_true hev] at hmem
          rcases List.mem_append.mp hmem with h | h
          · rcases evalOption_opt_tag h with h2 | h2
            · simp [evOpt] at h2
            · simp only [evOpt] at h2
              have h3 : j0 + (n + 1) = j0 := Option.some.inj h2
              omega
          · simp only [List.mem_singleton] at h
            cases h
      | false =>
          rw [tryOptions_cons_false hev] at hmem
          rw [tryOptions_cons_false hev]
          have harith : j0 + (n + 1) = (j0 + 1) + n := by omega
          rw [harith] at hmem ⊢
          rcases List.mem_append.mp hmem with h | h
          · rcases evalOption_opt_tag h with h2 | h2
            · simp [evOpt] at h2
            · simp only [evOpt] at h2
              have h3 : (j0 + 1) + n = j0 := Option.some.inj h2
              omega
          · rcases tryOptions_pum hget hpum h with ⟨l1, l2, heq, hpress⟩
            refine ⟨(evalOption oracle t i j0 tdir o0 θ ad).2.2 ++ l1, l2, ?_, ?_⟩
            · rw [heq, List.append_assoc]
            · intro key hk
              rcases List.mem_append.mp hk with h5 | h5
              · rcases evalOption_opt_tag h5 with h6 | h6
                · simp [evOpt] at h6
                · simp only [evOpt] at h6
                  have h7 : (j0 + 1) + n = j0 := Option.some.inj h6
                  omega
              · exact List.mem_append.mpr (Or.inr (hpress key h5))

end Client

/-- C5: within a single attempt of a step (the option loop of
`attempt_step_options`, embedded as `tryOptions`), options are evaluated
strictly in listed order (every earlier option is probed before a later
option's probe); for an option without `press_until_match` (`PressKeys` or
`NoAction`) the template is probed first and a key press for that option
occurs only after a probe of that option scoring at least the threshold;
for a `press_until_match` option the key presses occur before the option's
probe; and the first option that succeeds ends the attempt, so no event of
a later option appears in the trace. -/
theorem C5_option_evaluation (oracle : Client.Oracle) (i : Nat) (tdir : String)
    (θ rd ad : ℚ) (t : Nat) (opts : List Client.StepOption) :
    (∀ j tpl sc,
        Client.NavEvent.probe i j tpl sc ∈ (Client.tryOptions oracle i tdir θ rd ad 0 t opts).2.2 →
        ∀ j2, j2 < j →
        ∃ tpl2 sc2 l1 l2,
          (Client.tryOptions oracle i tdir θ rd ad 0 t opts).2.2 =
            l1 ++ Client.NavEvent.probe i j2 tpl2 sc2 :: l2 ∧
          Client.NavEvent.probe i j tpl sc ∈ l2) ∧
    (∀ n o key, opts[n]? = some o → o.press_until_match = none →
        Client.NavEvent.press i n key ∈ (Client.tryOptions oracle i tdir θ rd ad 0 t opts).2.2 →
        ∃ sc, θ ≤ sc ∧ ∃ l1 l2,
          (Client.tryOptions oracle i tdir θ rd ad 0 t opts).2.2 =
            l1 ++ Client.NavEvent.probe i n (tdir ++ "/" ++ o.template) sc :: l2 ∧
          Client.NavEvent.press i n key ∈ l2) ∧
    (∀ n o kp tpl sc, opts[n]? = some o → o.press_until_match = some kp →
        Client.NavEvent.probe i n tpl sc ∈ (Client.tryOptions oracle i tdir θ rd ad 0 t opts).2.2 →
        ∃ l1 l2,
          (Client.tryOptions oracle i tdir θ rd ad 0 t opts).2.2 =
            l1 ++ Client.NavEvent.probe i n tpl sc :: l2 ∧
          ∀ key, Client.NavEvent.press i n key ∈
              (Client.tryOptions oracle i tdir θ rd ad 0 t opts).2.2 →
            Client.NavEvent.press i n key ∈ l1) ∧
    (∀ j, (Client.tryOptions oracle i tdir θ rd ad 0 t opts).1 = some j →
        ∀ e j2, e ∈ (Client.tryOptions oracle i tdir θ rd ad 0 t opts).2.2 →
          Client.evOpt e = some j2 → j2 ≤ j) := by
  refine ⟨?_, ?_, ?_, ?_⟩
  · intro j tpl sc hmem j2 hlt
    exact Client.tryOptions_order hmem j2 (Nat.zero_le j2) hlt
  · intro n o key hget hpum hmem
    have hmem0 : Client.NavEvent.press i (0 + n) key ∈
        (Client.tryOptions oracle i tdir θ rd ad 0 t opts).2.2 := by
      simpa [Nat.zero_add] using hmem
    simpa [Nat.zero_add] using Client.tryOptions_gate hget hpum hmem0
  · intro n o kp tpl sc hget hpum hmem
    have hmem0 : Client.NavEvent.probe i (0 + n) tpl sc ∈
        (Client.tryOptions oracle i tdir θ rd ad 0 t opts).2.2 := by
      simpa [Nat.zero_add] using hmem
    simpa [Nat.zero_add] using Client.tryOptions_pum hget hpum hmem0
  · intro j hw e j2 hmem htag
    exact (Client.tryOptions_winner hw).2 hmem htag

/-- Witness for C5 at Scenario B of the spec: options err.png then ok.png,
only ok.png matching; the winning option is index 1, its press is preceded
by its passing probe, and no event belongs to an option beyond the winner. -/
theorem C5_option_evaluation_witness :
    (∃ sc, (1 : ℚ) ≤ sc ∧ ∃ l1 l2,
        (Client.tryOptions Client.oracleOkOnly 0 "d" 1 5 2 0 0
            [Client.optErr, Client.optOk]).2.2 =
          l1 ++ Client.NavEvent.probe 0 1 ("d" ++ "/" ++ Client.optOk.template) sc :: l2 ∧
        Client.NavEvent.press 0 1 "enter" ∈ l2) ∧
    (∀ e j2, e ∈ (Client.tryOptions Client.oracleOkOnly 0 "d" 1 5 2 0 0
          [Client.optErr, Client.optOk]).2.2 →
        Client.evOpt e = some j2 → j2 ≤ 1) := by
  have h := C5_option_evaluation Client.oracleOkOnly 0 "d" 1 5 2 0
    [Client.optErr, Client.optOk]
  exact ⟨h.2.1 1 Client.optOk "enter" (by decide) rfl (by decide),
    h.2.2.2 1 (by decide)⟩

namespace Client

theorem attemptLoop_step_tag {oracle : Oracle} {i : Nat} {sd : Step} {tdir : String}
    {θ rd ad : ℚ} :
    ∀ {fuel t : Nat} {e : NavEvent} {s : Nat},
      e ∈ (attemptLoop oracle i sd tdir θ rd ad t fuel).2.2 → evStep e = some s → s = i
  | 0, t, e, s, hmem, _ => by simp [attemptLoop] at hmem
  | fuel + 1, t, e, s, hmem, htag => by
      rw [attemptLoop] at hmem
      rcases hw : (tryOptions oracle i tdir θ rd ad 0 t sd.options).1 with _ | j
      · rw [hw] at hmem
        by_cases hf : fuel = 0
        · rw [if_pos hf] at hmem
          exact tryOptions_step_tag hmem htag
        · rw [if_neg hf] at hmem
          rcases List.mem_append.mp hmem with h | h
          · exact tryOptions_step_tag h htag
          · rcases List.mem_cons.mp h with h2 | h2
            · subst h2
              simp [evStep] at htag
            · exact attemptLoop_step_tag h2 htag
      · rw [hw] at hmem
        exact tryOptions_step_tag hmem htag

theorem attempt_step_options_step_tag {oracle : Oracle} {t i : Nat} {sd : Step}
    {tdir : String} {θ : ℚ} {mr : Nat} {rd ad : ℚ} {e : NavEvent} {s : Nat}
    (hmem : e ∈ (attempt_step_options oracle t i sd tdir θ mr rd ad).2.2)
    (htag : evStep e = some s) : s = i :=
  attemptLoop_step_tag hmem htag

theorem handle_step_failure_step_tag {oracle : Oracle} {t i : Nat} {prevOpt : Option Step}
    {sd : Step} {cf : Nat} {tdir : String} {θ : ℚ} {mr pr : Nat} {rd ad : ℚ} {e : NavEvent}
    {s : Nat}
    (hmem : e ∈ (handle_step_failure oracle t i prevOpt sd cf tdir θ mr pr rd ad).2.2)
    (htag : evStep e = some s) : s = i - 1 ∨ s = i := by
  rcases prevOpt with _ | prev
  · simp [handle_step_failure] at hmem
  · rw [handle_step_failure] at hmem
    rcases hr1 : (attempt_step_options oracle t (i - 1) prev tdir θ pr rd ad).1 with _ | _
    all_goals rw [hr1] at hmem
    · simp only [Bool.false_eq_true, if_false] at hmem
      exact Or.inl (attempt_step_options_step_tag hmem htag)
    · simp only [if_true] at hmem
      rcases hr2 : (attempt_step_options oracle
          (attempt_step_options oracle t (i - 1) prev tdir θ pr rd ad).2.1 i sd tdir θ mr rd
          ad).1 with _ | _
      all_goals rw [hr2] at hmem
      · simp only [Bool.false_eq_true, if_false] at hmem
        rcases List.mem_append.mp hmem with h | h
        · exact Or.inl (attempt_step_options_step_tag h htag)
        · exact Or.inr (attempt_step_options_step_tag h htag)
      · simp only [if_true] at hmem
        rcases List.mem_append.mp hmem with h | h
        · exact Or.inl (attempt_step_options_step_tag h htag)
        · exact Or.inr (attempt_step_options_step_tag h htag)

end Client

namespace Client

theorem handle_none_eq {oracle : Oracle} {t i : Nat} {sd : Step} {cf : Nat} {tdir : String}
    {θ : ℚ} {mr pr : Nat} {rd ad : ℚ} :
    handle_step_failure oracle t i none sd cf tdir θ mr pr rd ad = ((false, cf + 1), t, []) := by
  simp [handle_step_failure]

theorem handle_prev_fail {oracle : Oracle} {t i : Nat} {prev sd : Step} {cf : Nat}
    {tdir : String} {θ : ℚ} {mr pr : Nat} {rd ad : ℚ}
    (hr1 : (attempt_step_options oracle t (i - 1) prev tdir θ pr rd ad).1 = false) :
    handle_step_failure oracle t i (some prev) sd cf tdir θ mr pr rd ad =
      ((false, cf + 1), (attempt_step_options oracle t (i - 1) prev tdir θ pr rd ad).2.1,
        (attempt_step_options oracle t (i - 1) prev tdir θ pr rd ad).2.2) := by
  simp [handle_step_failure, hr1]

theorem handle_prev_ok {oracle : Oracle} {t i : Nat} {prev sd : Step} {cf : Nat}
    {tdir : String} {θ : ℚ} {mr pr : Nat} {rd ad : ℚ}
    (hr1 : (attempt_step_options oracle t (i - 1) prev tdir θ pr rd ad).1 = true) :
    handle_step_failure oracle t i (some prev) sd cf tdir θ mr pr rd ad =
      (if (attempt_step_options oracle
            (attempt_step_options oracle t (i - 1) prev tdir θ pr rd ad).2.1 i sd tdir θ mr rd
            ad).1 then ((true, 0)) else ((false, cf + 1)),
        (attempt_step_options oracle
          (attempt_step_options oracle t (i - 1) prev tdir θ pr rd ad).2.1 i sd tdir θ mr rd
          ad).2.1,
        (attempt_step_options oracle t (i - 1) prev tdir θ pr rd ad).2.2 ++
          (attempt_step_options oracle
            (attempt_step_options oracle t (i - 1) prev tdir θ pr rd ad).2.1 i sd tdir θ mr rd
            ad).2.2) := by
  rw [handle_step_failure]
  rw [if_pos hr1]
  rcases hr2 : (attempt_step_options oracle
      (attempt_step_options oracle t (i - 1) prev tdir θ pr rd ad).2.1 i sd tdir θ mr rd
      ad).1 with _ | _
  · simp [hr2]
  · simp [hr2]

end Client

/-- C6: when all `max_retries` attempts for step `i` fail (and a previous
step exists), `handle_step_failure` retries step `i - 1` with the
`previous_step_retries` budget; when the previous step does not match, the
failure is recorded as `(false, cf + 1)` with no retry of the current step;
when it matches, step `i` is retried once more with the full `max_retries`
budget, recording `(true, 0)` on success (consecutive failures reset) and
`(false, cf + 1)` otherwise; every event of recovery belongs to step
`i - 1` or step `i`, so no earlier step is ever re-attempted or has its
action re-invoked; and with no previous step (index 0) the failure is
recorded at once with no events. -/
theorem C6_recovery (oracle : Client.Oracle) (t i : Nat) (prev sd : Client.Step) (cf : Nat)
    (tdir : String) (θ : ℚ) (mr pr : Nat) (rd ad : ℚ) :
    ((Client.attempt_step_options oracle t (i - 1) prev tdir θ pr rd ad).1 = false →
      Client.handle_step_failure oracle t i (some prev) sd cf tdir θ mr pr rd ad =
        ((false, cf + 1), (Client.attempt_step_options oracle t (i - 1) prev tdir θ pr rd ad).2.1,
          (Client.attempt_step_options oracle t (i - 1) prev tdir θ pr rd ad).2.2)) ∧
    ((Client.attempt_step_options oracle t (i - 1) prev tdir θ pr rd ad).1 = true →
      ((Client.attempt_step_options oracle
            (Client.attempt_step_options oracle t (i - 1) prev tdir θ pr rd ad).2.1 i sd tdir θ mr rd
            ad).1 = true →
        (Client.handle_step_failure oracle t i (some prev) sd cf tdir θ mr pr rd ad).1 =
          (true, 0)) ∧
      ((Client.attempt_step_options oracle
            (Client.attempt_step_options oracle t (i - 1) prev tdir θ pr rd ad).2.1 i sd tdir θ mr rd
            ad).1 = false →
        (Client.handle_step_failure oracle t i (some prev) sd cf tdir θ mr pr rd ad).1 =
          (false, cf + 1)) ∧
      (Client.handle_step_failure oracle t i (some prev) sd cf tdir θ mr pr rd ad).2.2 =
        (Client.attempt_step_options oracle t (i - 1) prev tdir θ pr rd ad).2.2 ++
          (Client.attempt_step_options oracle
            (Client.attempt_step_options oracle t (i - 1) prev tdir θ pr rd ad).2.1 i sd tdir θ mr rd
            ad).2.2) ∧
    (∀ e s, e ∈ (Client.handle_step_failure oracle t i (some prev) sd cf tdir θ mr pr rd
        ad).2.2 → Client.evStep e = some s → s = i - 1 ∨ s = i) ∧
    (Client.handle_step_failure oracle t i none sd cf tdir θ mr pr rd ad =
      ((false, cf + 1), t, [])) := by
  refine ⟨?_, ?_, ?_, Client.handle_none_eq⟩
  · intro hr1
    exact Client.handle_prev_fail hr1
  · intro hr1
    refine ⟨?_, ?_, ?_⟩
    · intro hr2
      rw [Client.handle_prev_ok hr1, hr2]
      simp
    · intro hr2
      rw [Client.handle_prev_ok hr1, hr2]
      simp
    · rw [Client.handle_prev_ok hr1]
  · intro e s hmem htag
    exact Client.handle_step_failure_step_tag hmem htag

/-- Witness for C6: with a perfectly matching screen, recovery of step 1
reproduces step 0 and the retried step 1 succeeds, returning (true, 0). -/
theorem C6_recovery_witness :
    (Client.handle_step_failure Client.oracleOne 0 1 (some Client.overrideStep)
        Client.overrideStep 1 "d" 1 2 1 1 1).1 = (true, 0) ∧
    Client.handle_step_failure Client.oracleOne 0 1 none Client.overrideStep 1 "d" 1 2 1 1 1 =
      ((false, 2), 0, []) := by
  have h := C6_recovery Client.oracleOne 0 1 Client.overrideStep Client.overrideStep 1 "d" 1 2
    1 1 1
  exact ⟨(h.2.1 (by decide)).1 (by decide), h.2.2.2⟩

namespace Client

theorem handle_cf_true {oracle : Oracle} {t i : Nat} {prevOpt : Option Step} {sd : Step}
    {cf : Nat} {tdir : String} {θ : ℚ} {mr pr : Nat} {rd ad : ℚ}
    (hh : (handle_step_failure oracle t i prevOpt sd cf tdir θ mr pr rd ad).1.1 = true) :
    (handle_step_failure oracle t i prevOpt sd cf tdir θ mr pr rd ad).1.2 = 0 := by
  rcases prevOpt with _ | prev
  · rw [handle_none_eq] at hh
    simp at hh
  · rcases hr1 : (attempt_step_options oracle t (i - 1) prev tdir θ pr rd ad).1 with _ | _
    · rw [handle_prev_fail hr1] at hh
      simp at hh
    · rw [handle_prev_ok hr1] at hh ⊢
      rcases hr2 : (attempt_step_options oracle
          (attempt_step_options oracle t (i - 1) prev tdir θ pr rd ad).2.1 i sd tdir θ mr rd
          ad).1 with _ | _
      · rw [hr2] at hh
        simp at hh
      · simp

theorem handle_cf_false {oracle : Oracle} {t i : Nat} {prevOpt : Option Step} {sd : Step}
    {cf : Nat} {tdir : String} {θ : ℚ} {mr pr : Nat} {rd ad : ℚ}
    (hh : (handle_step_failure oracle t i prevOpt sd cf tdir θ mr pr rd ad).1.1 = false) :
    (handle_step_failure oracle t i prevOpt sd cf tdir θ mr pr rd ad).1.2 = cf + 1 := by
  rcases prevOpt with _ | prev
  · rw [handle_none_eq]
  · rcases hr1 : (attempt_step_options oracle t (i - 1) prev tdir θ pr rd ad).1 with _ | _
    · rw [handle_prev_fail hr1]
    · rw [handle_prev_ok hr1] at hh ⊢
      rcases hr2 : (attempt_step_options oracle
          (attempt_step_options oracle t (i - 1) prev tdir θ pr rd ad).2.1 i sd tdir θ mr rd
          ad).1 with _ | _
      · simp
      · rw [hr2] at hh
        simp at hh

theorem execSeq_nil {oracle : Oracle} {tdir : String} {θ : ℚ} {mr : Nat} {rd : ℚ} {pr : Nat}
    {ad : ℚ} {t i : Nat} {prev : Option Step} {cf : Nat} :
    execSeq oracle tdir θ mr rd pr ad t i prev cf [] = ⟨true, t, [], []⟩ := by
  simp [execSeq]

theorem execSeq_cons_matched {oracle : Oracle} {tdir : String} {θ : ℚ} {mr : Nat} {rd : ℚ}
    {pr : Nat} {ad : ℚ} {t i : Nat} {prev : Option Step} {cf : Nat} {sd : Step}
    {rest : List Step}
    (ha : (attempt_step_options oracle t i sd tdir θ mr rd ad).1 = true) :
    execSeq oracle tdir θ mr rd pr ad t i prev cf (sd :: rest) =
      ⟨(execSeq oracle tdir θ mr rd pr ad
          (attempt_step_options oracle t i sd tdir θ mr rd ad).2.1 (i + 1) (some sd) 0
          rest).result,
        (execSeq oracle tdir θ mr rd pr ad
          (attempt_step_options oracle t i sd tdir θ mr rd ad).2.1 (i + 1) (some sd) 0
          rest).t,
        (attempt_step_options oracle t i sd tdir θ mr rd ad).2.2 ++ NavEvent.sleep ad ::
          (execSeq oracle tdir θ mr rd pr ad
            (attempt_step_options oracle t i sd tdir θ mr rd ad).2.1 (i + 1) (some sd) 0
            rest).events,
        true :: (execSeq oracle tdir θ mr rd pr ad
          (attempt_step_options oracle t i sd tdir θ mr rd ad).2.1 (i + 1) (some sd) 0
          rest).outcomes⟩ := by
  rw [execSeq]
  simp [ha]

theorem execSeq_cons_recovered {oracle : Oracle} {tdir : String} {θ : ℚ} {mr : Nat} {rd : ℚ}
    {pr : Nat} {ad : ℚ} {t i : Nat} {prev : Option Step} {cf : Nat} {sd : Step}
    {rest : List Step}
    (ha : (attempt_step_options oracle t i sd tdir θ mr rd ad).1 = false)
    (hh : (handle_step_failure oracle (attempt_step_options oracle t i sd tdir θ mr rd
        ad).2.1 i prev sd cf tdir θ mr pr rd ad).1.1 = true) :
    execSeq oracle tdir θ mr rd pr ad t i prev cf (sd :: rest) =
      ⟨(execSeq oracle tdir θ mr rd pr ad
          (handle_step_failure oracle (attempt_step_options oracle t i sd tdir θ mr rd ad).2.1
            i prev sd cf tdir θ mr pr rd ad).2.1 (i + 1) (some sd)
          (handle_step_failure oracle (attempt_step_options oracle t i sd tdir θ mr rd ad).2.1
            i prev sd cf tdir θ mr pr rd ad).1.2 rest).result,
        (execSeq oracle tdir θ mr rd pr ad
          (handle_step_failure oracle (attempt_step_options oracle t i sd tdir θ mr rd ad).2.1
            i prev sd cf tdir θ mr pr rd ad).2.1 (i + 1) (some sd)
          (handle_step_failure oracle (attempt_step_options oracle t i sd tdir θ mr rd ad).2.1
            i prev sd cf tdir θ mr pr rd ad).1.2 rest).t,
        (attempt_step_options oracle t i sd tdir θ mr rd ad).2.2 ++
          (handle_step_failure oracle (attempt_step_options oracle t i sd tdir θ mr rd ad).2.1
            i prev sd cf tdir θ mr pr rd ad).2.2 ++ NavEvent.sleep ad ::
          (execSeq oracle tdir θ mr rd pr ad
            (handle_step_failure oracle (attempt_step_options oracle t i sd tdir θ mr rd
              ad).2.1 i prev sd cf tdir θ mr pr rd ad).2.1 (i + 1) (some sd)
            (handle_step_failure oracle (attempt_step_options oracle t i sd tdir θ mr rd
              ad).2.1 i prev sd cf tdir θ mr pr rd ad).1.2 rest).events,
        true :: (execSeq oracle tdir θ mr rd pr ad
          (handle_step_failure oracle (attempt_step_options oracle t i sd tdir θ mr rd ad).2.1
            i prev sd cf tdir θ mr pr rd ad).2.1 (i + 1) (some sd)
          (handle_step_failure oracle (attempt_step_options oracle t i sd tdir θ mr rd ad).2.1
            i prev sd cf tdir θ mr pr rd ad).1.2 rest).outcomes⟩ := by
  rw [execSeq]
  simp [ha, hh]

theorem execSeq_cons_abort {oracle : Oracle} {tdir : String} {θ : ℚ} {mr : Nat} {rd : ℚ}
    {pr : Nat} {ad : ℚ} {t i : Nat} {prev : Option Step} {cf : Nat} {sd : Step}
    {rest : List Step}
    (ha : (attempt_step_options oracle t i sd tdir θ mr rd ad).1 = false)
    (hh : (handle_step_failure oracle (attempt_step_options oracle t i sd tdir θ mr rd
        ad).2.1 i prev sd cf tdir θ mr pr rd ad).1.1 = false)
    (h2 : 2 ≤ (handle_step_failure oracle (attempt_step_options oracle t i sd tdir θ mr rd
        ad).2.1 i prev sd cf tdir θ mr pr rd ad).1.2) :
    execSeq oracle tdir θ mr rd pr ad t i prev cf (sd :: rest) =
      ⟨false,
        (handle_step_failure oracle (attempt_step_options oracle t i sd tdir θ mr rd ad).2.1
          i prev sd cf tdir θ mr pr rd ad).2.1,
        (attempt_step_options oracle t i sd tdir θ mr rd ad).2.2 ++
          (handle_step_failure oracle (attempt_step_options oracle t i sd tdir θ mr rd ad).2.1
            i prev sd cf tdir θ mr pr rd ad).2.2,
        [false]⟩ := by
  rw [execSeq]
  simp [ha, hh, h2]

theorem execSeq_cons_failcont {oracle : Oracle} {tdir : String} {θ : ℚ} {mr : Nat} {rd : ℚ}
    {pr : Nat} {ad : ℚ} {t i : Nat} {prev : Option Step} {cf : Nat} {sd : Step}
    {rest : List Step}
    (ha : (attempt_step_options oracle t i sd tdir θ mr rd ad).1 = false)
    (hh : (handle_step_failure oracle (attempt_step_options oracle t i sd tdir θ mr rd
        ad).2.1 i prev sd cf tdir θ mr pr rd ad).1.1 = false)
    (h2 : ¬ 2 ≤ (handle_step_failure oracle (attempt_step_options oracle t i sd tdir θ mr rd
        ad).2.1 i prev sd cf tdir θ mr pr rd ad).1.2) :
    execSeq oracle tdir θ mr rd pr ad t i prev cf (sd :: rest) =
      ⟨(execSeq oracle tdir θ mr rd pr ad
          (handle_step_failure oracle (attempt_step_options oracle t i sd tdir θ mr rd ad).2.1
            i prev sd cf tdir θ mr pr rd ad).2.1 (i + 1) (some sd)
          (handle_step_failure oracle (attempt_step_options oracle t i sd tdir θ mr rd ad).2.1
            i prev sd cf tdir θ mr pr rd ad).1.2 rest).result,
        (execSeq oracle tdir θ mr rd pr ad
          (handle_step_failure oracle (attempt_step_options oracle t i sd tdir θ mr rd ad).2.1
            i prev sd cf tdir θ mr pr rd ad).2.1 (i + 1) (some sd)
          (handle_step_failure oracle (attempt_step_options oracle t i sd tdir θ mr rd ad).2.1
            i prev sd cf tdir θ mr pr rd ad).1.2 rest).t,
        (attempt_step_options oracle t i sd tdir θ mr rd ad).2.2 ++
          (handle_step_failure oracle (attempt_step_options oracle t i sd tdir θ mr rd ad).2.1
            i prev sd cf tdir θ mr pr rd ad).2.2 ++ NavEvent.sleep ad ::
          (execSeq oracle tdir θ mr rd pr ad
            (handle_step_failure oracle (attempt_step_options oracle t i sd tdir θ mr rd
              ad).2.1 i prev sd cf tdir θ mr pr rd ad).2.1 (i + 1) (some sd)
            (handle_step_failure oracle (attempt_step_options oracle t i sd tdir θ mr rd
              ad).2.1 i prev sd cf tdir θ mr pr rd ad).1.2 rest).events,
        false :: (execSeq oracle tdir θ mr rd pr ad
          (handle_step_failure oracle (attempt_step_options oracle t i sd tdir θ mr rd ad).2.1
            i prev sd cf tdir θ mr pr rd ad).2.1 (i + 1) (some sd)
          (handle_step_failure oracle (attempt_step_options oracle t i sd tdir θ mr rd ad).2.1
            i prev sd cf tdir θ mr pr rd ad).1.2 rest).outcomes⟩ := by
  rw [execSeq]
  simp [ha, hh, h2]

end Client

namespace Client

set_option maxHeartbeats 1000000 in
theorem execSeq_inv {oracle : Oracle} {tdir : String} {θ : ℚ} {mr : Nat} {rd : ℚ} {pr : Nat}
    {ad : ℚ} :
    ∀ {steps : List Step} {t i : Nat} {prev : Option Step} {cf : Nat}, cf ≤ 1 →
      SeqInv steps.length i cf (execSeq oracle tdir θ mr rd pr ad t i prev cf steps)
  | [], t, i, prev, cf, hcf => by
      rw [execSeq_nil]
      unfold SeqInv
      refine ⟨fun _ => rfl, ?_, ?_, ?_, ?_, ?_⟩
      · intro h
        simp at h
      · intro m h1 h2
        simp at h1
      · rintro ⟨l0, hl⟩
        simp at hl
      · intro e s hmem _
        simp at hmem
      · intro _ h2
        simp at h2
  | sd :: rest, t, i, prev, cf, hcf => by
      have htagA : ∀ e s, e ∈ (attempt_step_options oracle t i sd tdir θ mr rd ad).2.2 →
          evStep e = some s → s = i :=
        fun _ _ h1 h2 => attempt_step_options_step_tag h1 h2
      rcases ha : (attempt_step_options oracle t i sd tdir θ mr rd ad).1 with _ | _
      · -- the first attempt failed, recovery runs
        have htagH : ∀ e s,
            e ∈ (handle_step_failure oracle
              (attempt_step_options oracle t i sd tdir θ mr rd ad).2.1 i prev sd cf tdir θ mr
              pr rd ad).2.2 → evStep e = some s → s = i - 1 ∨ s = i :=
          fun _ _ h1 h2 => handle_step_failure_step_tag h1 h2
        rcases hh : (handle_step_failure oracle
            (attempt_step_options oracle t i sd tdir θ mr rd ad).2.1 i prev sd cf tdir θ mr pr
            rd ad).1.1 with _ | _
        · -- recovery failed as well
          have hcf2 : (handle_step_failure oracle
              (attempt_step_options oracle t i sd tdir θ mr rd ad).2.1 i prev sd cf tdir θ mr
              pr rd ad).1.2 = cf + 1 := handle_cf_false hh
          by_cases h2 : 2 ≤ (handle_step_failure oracle
              (attempt_step_options oracle t i sd tdir θ mr rd ad).2.1 i prev sd cf tdir θ mr
              pr rd ad).1.2
          · -- two consecutive failures: abort
            rw [execSeq_cons_abort ha hh h2]
            have hcf1 : cf = 1 := by omega
            unfold SeqInv
            refine ⟨?_, ?_, ?_, ?_, ?_, ?_⟩
            · intro h
              simp at h
            · intro _
              exact Or.inr ⟨rfl, hcf1⟩
            · intro m h1 hb
              rcases m with _ | m
              · simp at hb
              · simp at h1
            · intro _
              rfl
            · intro e s hmem htag
              rcases List.mem_append.mp hmem with h | h
              · have hsi := htagA e s h htag
                simp only [List.length_cons, List.length_nil]
                omega
              · have hsi := htagH e s h htag
                simp only [List.length_cons, List.length_nil]
                omega
            · intro _ _
              exact ⟨rfl, rfl⟩
          · -- a single unresolved step: continue with cf + 1
            rw [execSeq_cons_failcont ha hh h2]
            rw [hcf2] at h2 ⊢
            have hc0 : cf = 0 := by omega
            subst hc0
            have IH := @execSeq_inv oracle tdir θ mr rd pr ad rest
              (handle_step_failure oracle
                (attempt_step_options oracle t i sd tdir θ mr rd ad).2.1 i prev sd 0 tdir θ mr
                pr rd ad).2.1 (i + 1) (some sd) (0 + 1) (by omega)
            obtain ⟨I1, I2, I3, I4, I5, I6⟩ := IH
            unfold SeqInv
            refine ⟨?_, ?_, ?_, ?_, ?_, ?_⟩
            · intro h
              simp only at h
              simp [I1 h]
            · intro h
              simp only at h
              rcases I2 h with ⟨l0, hl⟩ | ⟨hl, _⟩
              · exact Or.inl ⟨false :: l0, by simp [hl]⟩
              · exact Or.inl ⟨[], by simp [hl]⟩
            · intro m h1 hb
              rcases m with _ | m
              · simp only [List.getElem?_cons_succ, List.getElem?_cons_zero] at h1 hb
                have h6 := I6 rfl hb
                exact ⟨[], by simp [h6.1], rfl⟩
              · simp only [List.getElem?_cons_succ] at h1 hb
                obtain ⟨l0, hl, hlen⟩ := I3 m h1 hb
                exact ⟨false :: l0, by simp [hl], by simp [hlen]⟩
            · rintro ⟨l0, hl⟩
              rcases l0 with _ | ⟨b, l0⟩
              · simp only [List.nil_append, List.cons.injEq] at hl
                have h6 := I6 rfl (by simp [hl.2])
                simpa using h6.2
              · simp only [List.cons_append, List.cons.injEq] at hl
                have := I4 ⟨l0, hl.2⟩
                simpa using this
            · intro e s hmem htag
              simp only [List.append_assoc, List.mem_append, List.mem_cons] at hmem
              rcases hmem with h | h | h | h
              · have hsi := htagA e s h htag
                simp only [List.length_cons]
                omega
              · have hsi := htagH e s h htag
                simp only [List.length_cons]
                omega
              · subst h
                simp [evStep] at htag
              · have hb := I5 e s h htag
                simp only [List.length_cons]
                omega
            · intro h1 _
              simp at h1
        · -- recovery succeeded
          have hcf0 : (handle_step_failure oracle
              (attempt_step_options oracle t i sd tdir θ mr rd ad).2.1 i prev sd cf tdir θ mr
              pr rd ad).1.2 = 0 := handle_cf_true hh
          rw [execSeq_cons_recovered ha hh, hcf0]
          have IH := @execSeq_inv oracle tdir θ mr rd pr ad rest
            (handle_step_failure oracle
              (attempt_step_options oracle t i sd tdir θ mr rd ad).2.1 i prev sd cf tdir θ mr
              pr rd ad).2.1 (i + 1) (some sd) 0 (by omega)
          obtain ⟨I1, I2, I3, I4, I5, I6⟩ := IH
          unfold SeqInv
          refine ⟨?_, ?_, ?_, ?_, ?_, ?_⟩
          · intro h
            simp only at h
            simp [I1 h]
          · intro h
            simp only at h
            rcases I2 h with ⟨l0, hl⟩ | ⟨_, hcf0'⟩
            · exact Or.inl ⟨true :: l0, by simp [hl]⟩
            · exact absurd hcf0' (by omega)
          · intro m h1 hb
            rcases m with _ | m
            · simp at h1
            · simp only [List.getElem?_cons_succ] at h1 hb
              obtain ⟨l0, hl, hlen⟩ := I3 m h1 hb
              exact ⟨true :: l0, by simp [hl], by simp [hlen]⟩
          · rintro ⟨l0, hl⟩
            rcases l0 with _ | ⟨b, l0⟩
            · simp at hl
            · simp only [List.cons_append, List.cons.injEq] at hl
              have := I4 ⟨l0, hl.2⟩
              simpa using this
          · intro e s hmem htag
            simp only [List.append_assoc, List.mem_append, List.mem_cons] at hmem
            rcases hmem with h | h | h | h
            · have hsi := htagA e s h htag
              simp only [List.length_cons]
              omega
            · have hsi := htagH e s h htag
              simp only [List.length_cons]
              omega
            · subst h
              simp [evStep] at htag
            · have hb := I5 e s h htag
              simp only [List.length_cons]
              omega
          · intro _ h2
            simp at h2
      · -- the step matched on the straight attempt
        rw [execSeq_cons_matched ha]
        have IH := @execSeq_inv oracle tdir θ mr rd pr ad rest
          (attempt_step_options oracle t i sd tdir θ mr rd ad).2.1 (i + 1)
          (some sd) 0 (by omega)
        obtain ⟨I1, I2, I3, I4, I5, I6⟩ := IH
        unfold SeqInv
        refine ⟨?_, ?_, ?_, ?_, ?_, ?_⟩
        · intro h
          simp only at h
          simp [I1 h]
        · intro h
          simp only at h
          rcases I2 h with ⟨l0, hl⟩ | ⟨_, hcf0'⟩
          · exact Or.inl ⟨true :: l0, by simp [hl]⟩
          · exact absurd hcf0' (by omega)
        · intro m h1 hb
          rcases m with _ | m
          · simp at h1
          · simp only [List.getElem?_cons_succ] at h1 hb
            obtain ⟨l0, hl, hlen⟩ := I3 m h1 hb
            exact ⟨true :: l0, by simp [hl], by simp [hlen]⟩
        · rintro ⟨l0, hl⟩
          rcases l0 with _ | ⟨b, l0⟩
          · simp at hl
          · simp only [List.cons_append, List.cons.injEq] at hl
            have := I4 ⟨l0, hl.2⟩
            simpa using this
        · intro e s hmem htag
          simp only [List.mem_append, List.mem_cons] at hmem
          rcases hmem with h | h | h
          · have hsi := htagA e s h htag
            simp only [List.length_cons]
            omega
          · subst h
            simp [evStep] at htag
          · have hb := I5 e s h htag
            simp only [List.length_cons]
            omega
        · intro _ h2
          simp at h2

end Client

/-- C3: for every navigation sequence, when the ghost outcome list of
`execute_navigation_sequence` records two successive unresolved steps
(indices j and j + 1, each after its recovery attempt), the run returns
`false`, the outcome list ends right there (no later step is attempted),
and every event of the whole run belongs to a step index at most j + 1;
conversely a run with no two successive unresolved steps returns `true`
and attempts every step, so a single unresolved step alone never aborts
the run and a resolved step resets the failure tracking. -/
theorem C3_fail_fast (oracle : Client.Oracle) (steps : List Client.Step) (tdir : String)
    (θ : ℚ) (mr : Nat) (rd : ℚ) (pr : Nat) (ad : ℚ) :
    (∀ j, (Client.execute_navigation_sequence oracle steps tdir θ mr rd pr ad).outcomes[j]? =
        some false →
      (Client.execute_navigation_sequence oracle steps tdir θ mr rd pr ad).outcomes[j + 1]? =
        some false →
      (Client.execute_navigation_sequence oracle steps tdir θ mr rd pr ad).result = false ∧
      (Client.execute_navigation_sequence oracle steps tdir θ mr rd pr ad).outcomes.length =
        j + 2 ∧
      (∀ e s, e ∈ (Client.execute_navigation_sequence oracle steps tdir θ mr rd pr ad).events →
        Client.evStep e = some s → s + 1 ≤ j + 2)) ∧
    ((∀ j, ¬ ((Client.execute_navigation_sequence oracle steps tdir θ mr rd pr
          ad).outcomes[j]? = some false ∧
        (Client.execute_navigation_sequence oracle steps tdir θ mr rd pr ad).outcomes[j + 1]? =
          some false)) →
      (Client.execute_navigation_sequence oracle steps tdir θ mr rd pr ad).result = true ∧
      (Client.execute_navigation_sequence oracle steps tdir θ mr rd pr ad).outcomes.length =
        steps.length) := by
  obtain ⟨I1, I2, I3, I4, I5, I6⟩ :=
    @Client.execSeq_inv oracle tdir θ mr rd pr ad steps 0 0 none 0 (by omega)
  constructor
  · intro j h1 h2
    obtain ⟨l0, hl, hlen⟩ := I3 j h1 h2
    refine ⟨I4 ⟨l0, hl⟩, by simp [Client.execute_navigation_sequence, hl, hlen], ?_⟩
    intro e s hmem htag
    have hb := I5 e s hmem htag
    have hll : (Client.execute_navigation_sequence oracle steps tdir θ mr rd pr
        ad).outcomes.length = j + 2 := by simp [Client.execute_navigation_sequence, hl, hlen]
    rw [Client.execute_navigation_sequence] at hll
    omega
  · intro hnone
    rcases hres : (Client.execute_navigation_sequence oracle steps tdir θ mr rd pr ad).result
      with _ | _
    · rw [Client.execute_navigation_sequence] at hres
      rcases I2 hres with ⟨l0, hl⟩ | ⟨_, hcf⟩
      · exfalso
        refine hnone l0.length ⟨?_, ?_⟩
        · rw [Client.execute_navigation_sequence, hl,
            List.getElem?_append_right (Nat.le_refl _)]
          simp
        · rw [Client.execute_navigation_sequence, hl, List.getElem?_append_right (by omega)]
          have : l0.length + 1 - l0.length = 1 := by omega
          rw [this]
          rfl
      · exact absurd hcf (by omega)
    · refine ⟨rfl, ?_⟩
      rw [Client.execute_navigation_sequence] at hres ⊢
      exact I1 hres

/-- A step that never matches under `oracleZero`: probing alone. -/
theorem C3_fail_fast_witness :
    ((Client.execute_navigation_sequence Client.oracleZero
        [Client.overrideStep, Client.overrideStep, Client.overrideStep] "d" 1 1 1 1 1).result =
      false ∧
    (Client.execute_navigation_sequence Client.oracleZero
        [Client.overrideStep, Client.overrideStep, Client.overrideStep] "d" 1 1 1 1
        1).outcomes.length = 2) ∧
    ((Client.execute_navigation_sequence Client.oracleOne
        [Client.overrideStep, Client.overrideStep] "d" 1 1 1 1 1).result = true ∧
    (Client.execute_navigation_sequence Client.oracleOne
        [Client.overrideStep, Client.overrideStep] "d" 1 1 1 1 1).outcomes.length = 2) := by
  have h1 := (C3_fail_fast Client.oracleZero
    [Client.overrideStep, Client.overrideStep, Client.overrideStep] "d" 1 1 1 1 1).1 0
    (by decide) (by decide)
  have h2 := (C3_fail_fast Client.oracleOne [Client.overrideStep, Client.overrideStep] "d" 1 1
    1 1 1).2 (by
      intro j hj
      have houtc : (Client.execute_navigation_sequence Client.oracleOne
          [Client.overrideStep, Client.overrideStep] "d" 1 1 1 1 1).outcomes =
          [true, true] := by decide
      rw [houtc] at hj
      rcases j with _ | _ | j <;> simp at hj)
  exact ⟨⟨h1.1, h1.2.1⟩, h2⟩

/-- C8 counterexample: the claimed equivalence (status idle iff no current
game) is not an invariant of all states reachable through `configure`,
`set_status` and `reset`: `set_status` swaps only the status field, so
calling it with `running` on the initial state yields a reachable state
with status running and no current game, falsifying the backward direction
of the equivalence. -/
theorem C8_counterexample :
    ¬ (∀ s : Client.SetupState, Client.ReachableState s →
        ((s.status = Client.Status.idle) ↔ s.current_game = none)) := by
  intro h
  have hr : Client.ReachableState
      (Client.SetupState.init.set_status Client.Status.running) :=
    Client.ReachableState.setSt Client.Status.running Client.ReachableState.init
  have h2 := (h _ hr).mpr rfl
  simp [Client.SetupState.set_status, Client.SetupState.init] at h2

/-- C8 amended: for every state reachable from the initial idle state
through `configure` and `reset` alone, status is idle exactly when no game
is set, and an idle status implies both `current_game` and `role` are
`None`; `set_status` is excluded because it updates only the status field
and breaks both directions of the equivalence. -/
theorem C8_idle_invariant (s : Client.SetupState) (h : Client.ReachableCR s) :
    ((s.status = Client.Status.idle) ↔ s.current_game = none) ∧
    (s.status = Client.Status.idle → s.current_game = none ∧ s.role = none) := by
  induction h with
  | init => exact ⟨by simp [Client.SetupState.init], fun _ => ⟨rfl, rfl⟩⟩
  | cfg game sid role pc hip hs ih =>
      refine ⟨⟨?_, ?_⟩, ?_⟩
      · intro hst
        simp [Client.SetupState.configure] at hst
      · intro hg
        simp [Client.SetupState.configure] at hg
      · intro hst
        simp [Client.SetupState.configure] at hst
  | rst hs ih => exact ⟨by simp [Client.SetupState.reset, Client.SetupState.init],
      fun _ => ⟨rfl, rfl⟩⟩

/-- Witness for C8 amended at the initial state. -/
theorem C8_idle_invariant_witness :
    ((Client.SetupState.init.status = Client.Status.idle) ↔
      Client.SetupState.init.current_game = none) ∧
    (Client.SetupState.init.status = Client.Status.idle →
      Client.SetupState.init.current_game = none ∧ Client.SetupState.init.role = none) :=
  C8_idle_invariant Client.SetupState.init Client.ReachableCR.init


namespace Orch

theorem phase1_assignments_join {st : OrchState} {configureRes : Nat → CallOutcome} :
    ∀ {l : List Nat} {i : Nat}, 1 ≤ i →
      (phase1 st configureRes l i).assignments = l.map (fun s => (s, "join"))
  | [], i, _ => rfl
  | s :: rest, i, hi => by
      have hrec := @phase1_assignments_join st configureRes rest (i + 1) (by omega)
      have hrole : (if i = 0 then "host" else "join") = "join" := by
        rw [if_neg (by omega)]
      rcases hc : configureRes s with _ | m | m <;>
        simp [phase1, hc, hrole, hrec]

theorem st13_validate : validateSlots st13 1 [3, 1] = none := by
  norm_num [validateSlots, is_online, st13, regA, regC, hbId]

theorem st13_validate13 : validateSlots st13 1 [1, 3] = none := by
  norm_num [validateSlots, is_online, st13, regA, regC, hbId]

end Orch

/-- C2 counterexample: two online machines with distinct ids 1 and 3; a
multiplayer start for both, requested as slots [3, 1], assigns the role
host to the machine with id 3 even though the participant with the
minimum id is 1: the code gives host to the first slot of the request
list, not to the id-minimum machine. -/
theorem C2_counterexample :
    Orch.start_multiplayer Orch.st13 1 [3, 1] Orch.allOk Orch.allOk =
      ⟨Orch.MPResponse.completed 2 [⟨3, "host", "success"⟩, ⟨1, "join", "success"⟩],
        [3, 1], [(3, "host"), (1, "join")]⟩ ∧
    Orch.machineIdOf Orch.regC = some 3 ∧ Orch.machineIdOf Orch.regA = some 1 ∧
    (1 : Int) < 3 := by
  refine ⟨?_, rfl, rfl, by decide⟩
  rw [Orch.start_multiplayer, if_neg (by decide), Orch.st13_validate]
  decide

/-- C2 amended: `get_setups` lists the four slots in ascending slot-number
order (which coincides with ascending machine-id order only when each id
equals its slot number); `start_multiplayer` assigns host to the machine
in the first-listed requested slot and join to all others; consequently
the id-minimum machine receives host exactly when the request lists its
slot first, for instance when the requested slots are sorted ascending and
ids equal slot numbers. -/
theorem C2_host_assignment (st : Orch.OrchState) (now : ℚ) (s0 : Nat) (rest : List Nat)
    (configureRes startRes : Nat → Orch.CallOutcome)
    (hv : Orch.validateSlots st now (s0 :: rest) = none) (hne : rest ≠ []) :
    ((Orch.get_setups st now).map Prod.fst = [1, 2, 3, 4]) ∧
    ((Orch.start_multiplayer st now (s0 :: rest) configureRes startRes).assignments =
      (s0, "host") :: rest.map (fun s => (s, "join"))) ∧
    ((∀ s ∈ rest, s0 ≤ s) →
      ∀ p ∈ (Orch.start_multiplayer st now (s0 :: rest) configureRes startRes).assignments,
        s0 ≤ p.1 ∧ (p.1 ≠ s0 → p.2 = "join")) := by
  have hlen : ¬ (s0 :: rest).length < 2 := by
    rcases rest with _ | ⟨b, rest⟩
    · exact absurd rfl hne
    · simp
  have hassign : (Orch.start_multiplayer st now (s0 :: rest) configureRes startRes).assignments
      = (s0, "host") :: rest.map (fun s => (s, "join")) := by
    rw [Orch.start_multiplayer, if_neg hlen, hv]
    have hj := @Orch.phase1_assignments_join st configureRes rest (0 + 1) (by omega)
    have hp1 : (Orch.phase1 st configureRes (s0 :: rest) 0).assignments =
        (s0, "host") :: rest.map (fun s => (s, "join")) := by
      rcases hc : configureRes s0 with _ | m | m <;> simp [Orch.phase1, hc, hj]
    by_cases hgate : (Orch.phase1 st configureRes (s0 :: rest) 0).configured.length <
        (s0 :: rest).length
    · rw [if_pos hgate]
      exact hp1
    · rw [if_neg hgate]
      exact hp1
  refine ⟨by simp [Orch.get_setups], hassign, ?_⟩
  intro hmin p hp
  rw [hassign] at hp
  rcases List.mem_cons.mp hp with h | h
  · subst h
    exact ⟨Nat.le_refl s0, fun hne2 => absurd rfl hne2⟩
  · obtain ⟨s, hs, rfl⟩ := List.mem_map.mp h
    exact ⟨hmin s hs, fun _ => rfl⟩

/-- Witness for C2 amended: the same fleet, requested in ascending order,
gives host to slot 1 (the id-minimum machine). -/
theorem C2_host_assignment_witness :
    ((Orch.get_setups Orch.st13 1).map Prod.fst = [1, 2, 3, 4]) ∧
    ((Orch.start_multiplayer Orch.st13 1 [1, 3] Orch.allOk Orch.allOk).assignments =
      [(1, "host"), (3, "join")]) := by
  have h := C2_host_assignment Orch.st13 1 1 [3] Orch.allOk Orch.allOk Orch.st13_validate13
    (by decide)
  exact ⟨h.1, h.2.1⟩

namespace Orch

theorem phase1_counts {st : OrchState} {configureRes : Nat → CallOutcome} :
    ∀ {l : List Nat} {i : Nat},
      (phase1 st configureRes l i).results.length +
        (phase1 st configureRes l i).configured.length = l.length
  | [], _ => rfl
  | s :: rest, i => by
      have hrec := @phase1_counts st configureRes rest (i + 1)
      rcases hc : configureRes s with _ | m | m <;> simp [phase1, hc] <;> omega

theorem phase1_fail_mem {st : OrchState} {configureRes : Nat → CallOutcome} :
    ∀ {l : List Nat} {i : Nat} {s : Nat}, s ∈ l → configureRes s ≠ CallOutcome.ok →
      ∃ e ∈ (phase1 st configureRes l i).results, e.slot = s ∧
        (e.status = "failed_configure" ∨ e.status = "error_configure")
  | [], _, s, hmem, _ => absurd hmem (List.not_mem_nil s)
  | s0 :: rest, i, s, hmem, hne => by
      rcases List.mem_cons.mp hmem with h | h
      · subst h
        rcases hc : configureRes s with _ | m | m
        · exact absurd hc hne
        · exact ⟨⟨s, if i = 0 then "host" else "join", "failed_configure"⟩,
            by simp [phase1, hc], rfl, Or.inl rfl⟩
        · exact ⟨⟨s, if i = 0 then "host" else "join", "error_configure"⟩,
            by simp [phase1, hc], rfl, Or.inr rfl⟩
      · obtain ⟨e, he, hprop⟩ := @phase1_fail_mem st configureRes rest (i + 1) _ h hne
        rcases hc : configureRes s0 with _ | m | m
        · exact ⟨e, by simp only [phase1, hc]; exact he, hprop⟩
        · exact ⟨e, by simp only [phase1, hc]; exact List.mem_cons.mpr (Or.inr he), hprop⟩
        · exact ⟨e, by simp only [phase1, hc]; exact List.mem_cons.mpr (Or.inr he), hprop⟩

end Orch

/-- C4: in a multiplayer start request that passes validation, if any
selected slot's configure call fails (non-OK response or communication
error), phase 2 is aborted entirely: no slot is sent a start command
(the `started` ghost list is empty), the response is the phase-1 abort
carrying the configured count, and every slot whose configure failed has
an itemized per-machine entry in the returned results. -/
theorem C4_two_phase_abort (st : Orch.OrchState) (now : ℚ) (slot_numbers : List Nat)
    (configureRes startRes : Nat → Orch.CallOutcome)
    (hlen : ¬ slot_numbers.length < 2)
    (hval : Orch.validateSlots st now slot_numbers = none)
    (hfail : ∃ s ∈ slot_numbers, configureRes s ≠ Orch.CallOutcome.ok) :
    (Orch.start_multiplayer st now slot_numbers configureRes startRes).started = [] ∧
    (Orch.start_multiplayer st now slot_numbers configureRes startRes).response =
      Orch.MPResponse.abortPhase1
        (Orch.phase1 st configureRes slot_numbers 0).configured.length slot_numbers.length
        (Orch.phase1 st configureRes slot_numbers 0).results ∧
    (∀ s ∈ slot_numbers, configureRes s ≠ Orch.CallOutcome.ok →
      ∃ e ∈ (Orch.phase1 st configureRes slot_numbers 0).results, e.slot = s ∧
        (e.status = "failed_configure" ∨ e.status = "error_configure")) := by
  obtain ⟨s, hs, hne⟩ := hfail
  obtain ⟨e, he, _⟩ := @Orch.phase1_fail_mem st configureRes _ 0 _ hs hne
  have hcount := @Orch.phase1_counts st configureRes slot_numbers 0
  have hpos : 0 < (Orch.phase1 st configureRes slot_numbers 0).results.length :=
    List.length_pos.mpr (List.ne_nil_of_mem he)
  have hgate : (Orch.phase1 st configureRes slot_numbers 0).configured.length <
      slot_numbers.length := by omega
  refine ⟨?_, ?_, ?_⟩
  · rw [Orch.start_multiplayer, if_neg hlen, hval, if_pos hgate]
  · rw [Orch.start_multiplayer, if_neg hlen, hval, if_pos hgate]
  · intro s2 hs2 hne2
    exact @Orch.phase1_fail_mem st configureRes _ 0 _ hs2 hne2

/-- Witness for C4: slots [1, 3] requested, slot 3's configure failing;
nothing is started and slot 3 is itemized as failed. -/
theorem C4_two_phase_abort_witness :
    (Orch.start_multiplayer Orch.st13 1 [1, 3] Orch.failOn3 Orch.allOk).started = [] ∧
    (∃ e ∈ (Orch.phase1 Orch.st13 Orch.failOn3 [1, 3] 0).results, e.slot = 3 ∧
      (e.status = "failed_configure" ∨ e.status = "error_configure")) := by
  have h := C4_two_phase_abort Orch.st13 1 [1, 3] Orch.failOn3 Orch.allOk (by decide)
    Orch.st13_validate13 ⟨3, by decide, by decide⟩
  exact ⟨h.1, h.2.2 3 (by decide) (by decide)⟩

namespace Orch

theorem findFreeSlot_some {st : OrchState} {sid : String} {n : Nat}
    (h : findFreeSlot st sid = some n) :
    slotFreeOrOwn st sid n = true ∧ 1 ≤ n ∧ n ≤ 4 ∧
      ∀ m, 1 ≤ m → m < n → slotFreeOrOwn st sid m = false := by
  unfold findFreeSlot at h
  by_cases h1 : slotFreeOrOwn st sid 1 = true
  · rw [if_pos h1] at h
    obtain rfl : 1 = n := Option.some.inj h
    exact ⟨h1, by omega, by omega, fun m hm1 hm2 => absurd hm2 (by omega)⟩
  · rw [if_neg h1] at h
    by_cases h2 : slotFreeOrOwn st sid 2 = true
    · rw [if_pos h2] at h
      obtain rfl : 2 = n := Option.some.inj h
      refine ⟨h2, by omega, by omega, fun m hm1 hm2 => ?_⟩
      have hm : m = 1 := by omega
      subst hm
      exact Bool.eq_false_iff.mpr h1
    · rw [if_neg h2] at h
      by_cases h3 : slotFreeOrOwn st sid 3 = true
      · rw [if_pos h3] at h
        obtain rfl : 3 = n := Option.some.inj h
        refine ⟨h3, by omega, by omega, fun m hm1 hm2 => ?_⟩
        have hm : m = 1 ∨ m = 2 := by omega
        rcases hm with hm | hm <;> subst hm
        · exact Bool.eq_false_iff.mpr h1
        · exact Bool.eq_false_iff.mpr h2
      · rw [if_neg h3] at h
        by_cases h4 : slotFreeOrOwn st sid 4 = true
        · rw [if_pos h4] at h
          obtain rfl : 4 = n := Option.some.inj h
          refine ⟨h4, by omega, by omega, fun m hm1 hm2 => ?_⟩
          have hm : m = 1 ∨ m = 2 ∨ m = 3 := by omega
          rcases hm with hm | hm | hm <;> subst hm
          · exact Bool.eq_false_iff.mpr h1
          · exact Bool.eq_false_iff.mpr h2
          · exact Bool.eq_false_iff.mpr h3
        · rw [if_neg h4] at h
          cases h

end Orch

/-- C7 counterexample: slot 2 is occupied by the machine at
10.0.0.2:5000, yet a heartbeat from a different machine (10.0.0.9:5000)
carrying id 2 is bound directly to slot 2, evicting the occupant: the
claimed precondition that a direct bind happens only when the slot is free
or already bound to this machine does not hold in the code. -/
theorem C7_counterexample :
    Orch.get_setup_id Orch.occSt 2 = some "10.0.0.2:5000" ∧
    ("10.0.0.2:5000" : String) ≠ "10.0.0.9:5000" ∧
    (Orch.assign_setup_to_slot Orch.occSt "10.0.0.9:5000" Orch.regB9).1 = some 2 ∧
    (Orch.assign_setup_to_slot Orch.occSt "10.0.0.9:5000" Orch.regB9).2.slots 2 =
      some Orch.regB9 := by
  refine ⟨by decide, by decide, by decide, by decide⟩

/-- C7 amended: on a heartbeat with machine id in 1..4 the registry binds
the machine directly to slot id unconditionally, overwriting any current
occupant (no free-or-own check); for an id outside 1..4 it picks the
lowest slot among 1..4 that is free or already bound to this machine; and
when no such slot exists the machine is left unassigned (registry
unchanged) and the heartbeat is answered with 503 no_slot_available. -/
theorem C7_slot_assignment (st : Orch.OrchState) (sid : String)
    (setup : Orch.SetupRegistration) (hb : Orch.Heartbeat)
    (hhb : setup.heartbeat = some hb) :
    (1 ≤ hb.id → hb.id ≤ 4 →
      (Orch.assign_setup_to_slot st sid setup).1 = some hb.id.toNat ∧
      (Orch.assign_setup_to_slot st sid setup).2.slots hb.id.toNat = some setup ∧
      (Orch.assign_setup_to_slot st sid setup).2.setupToSlot sid = some hb.id.toNat) ∧
    (¬ (1 ≤ hb.id ∧ hb.id ≤ 4) →
      (Orch.assign_setup_to_slot st sid setup).1 = Orch.findFreeSlot st sid ∧
      (Orch.findFreeSlot st sid = none →
        (Orch.assign_setup_to_slot st sid setup).2 = st ∧
        Orch.heartbeat_reply (Orch.assign_setup_to_slot st sid setup).1 =
          (503, "no_slot_available")) ∧
      (∀ n, Orch.findFreeSlot st sid = some n →
        Orch.slotFreeOrOwn st sid n = true ∧ 1 ≤ n ∧ n ≤ 4 ∧
        ∀ m, 1 ≤ m → m < n → Orch.slotFreeOrOwn st sid m = false)) := by
  constructor
  · intro h1 h2
    rw [Orch.assign_setup_to_slot, hhb]
    simp only [if_pos (And.intro h1 h2)]
    exact ⟨by simp, by simp, by simp⟩
  · intro hout
    rw [Orch.assign_setup_to_slot, hhb]
    simp only [if_neg hout]
    rcases hf : Orch.findFreeSlot st sid with _ | n
    · refine ⟨rfl, fun _ => ⟨rfl, rfl⟩, ?_⟩
      intro n2 hn2
      cases hn2
    · refine ⟨rfl, ?_, ?_⟩
      · intro hnone
        cases hnone
      · intro n2 hn2
        have hfn : Orch.findFreeSlot st sid = some n2 := by rw [hf]; exact hn2
        exact Orch.findFreeSlot_some hfn

/-- Witness for C7 amended: id 3 on an empty registry binds slot 3
directly; id 7 on a full registry is left unassigned with a 503 reply. -/
theorem C7_slot_assignment_witness :
    ((Orch.assign_setup_to_slot Orch.emptySt "10.0.0.3:5000" Orch.regC).1 = some 3 ∧
      (Orch.assign_setup_to_slot Orch.emptySt "10.0.0.3:5000" Orch.regC).2.slots 3 =
        some Orch.regC) ∧
    ((Orch.assign_setup_to_slot Orch.fullSt "10.0.0.7:5000" Orch.regSeven).2 = Orch.fullSt ∧
      Orch.heartbeat_reply
        (Orch.assign_setup_to_slot Orch.fullSt "10.0.0.7:5000" Orch.regSeven).1 =
        (503, "no_slot_available")) := by
  have h1 := C7_slot_assignment Orch.emptySt "10.0.0.3:5000" Orch.regC (Orch.hbId 3) rfl
  have h2 := C7_slot_assignment Orch.fullSt "10.0.0.7:5000" Orch.regSeven (Orch.hbId 7) rfl
  have hin := h1.1 (by decide) (by decide)
  have hout := (h2.2 (by decide)).2.1 (by decide)
  exact ⟨⟨hin.1, hin.2.1⟩, hout⟩

namespace SpecNav

theorem pressEvs_mem {i : Nat} {kp : Client.Keys} {e : SEvent} (h : e ∈ pressEvs i kp) :
    ∃ key, e = SEvent.press i key := by
  rcases kp with k | ks
  · simp only [pressEvs, List.mem_singleton] at h
    exact ⟨k, h⟩
  · simp only [pressEvs, List.mem_map] at h
    obtain ⟨k, _, rfl⟩ := h
    exact ⟨k, rfl⟩

theorem pressOpt_mem {i : Nat} {kp : Option Client.Keys} {e : SEvent}
    (h : e ∈ pressOpt i kp) : ∃ key, e = SEvent.press i key := by
  rcases kp with _ | kp
  · simp [pressOpt] at h
  · exact pressEvs_mem h

theorem tryOptionsS_events {oracle : Client.Oracle} {θ : ℚ} {tdir : String} {i : Nat} :
    ∀ {opts : List Client.StepOption} {t : Nat} {e : SEvent},
      e ∈ (tryOptionsS oracle θ tdir i t opts).2.2 →
      (∃ key, e = SEvent.press i key) ∨ (∃ tpl sc, e = SEvent.probe i tpl sc)
  | [], t, e, h => by simp [tryOptionsS] at h
  | o :: rest, t, e, h => by
      rcases ho : o.press_until_match with _ | kp
      · simp only [tryOptionsS, ho] at h
        by_cases hs : θ ≤ oracle t (tdir ++ "/" ++ o.template)
        · rw [if_pos hs] at h
          rcases List.mem_cons.mp h with h2 | h2
          · exact Or.inr ⟨tdir ++ "/" ++ o.template,
              oracle t (tdir ++ "/" ++ o.template), h2⟩
          · exact Or.inl (pressOpt_mem h2)
        · rw [if_neg hs] at h
          rcases List.mem_cons.mp h with h2 | h2
          · exact Or.inr ⟨tdir ++ "/" ++ o.template,
              oracle t (tdir ++ "/" ++ o.template), h2⟩
          · exact tryOptionsS_events h2
      · simp only [tryOptionsS, ho] at h
        by_cases hs : θ ≤ oracle t (tdir ++ "/" ++ o.template)
        · rw [if_pos hs] at h
          rcases List.mem_append.mp h with h2 | h2
          · exact Or.inl (pressEvs_mem h2)
          · simp only [List.mem_singleton] at h2
            exact Or.inr ⟨tdir ++ "/" ++ o.template,
              oracle t (tdir ++ "/" ++ o.template), h2⟩
        · rw [if_neg hs] at h
          rcases List.mem_append.mp h with h2 | h2
          · exact Or.inl (pressEvs_mem h2)
          · rcases List.mem_cons.mp h2 with h3 | h3
            · exact Or.inr ⟨tdir ++ "/" ++ o.template,
                oracle t (tdir ++ "/" ++ o.template), h3⟩
            · exact tryOptionsS_events h3

theorem attemptS_events {oracle : Client.Oracle} {cancel : Cancel} {θ : ℚ} {tdir : String}
    {i : Nat} {sd : Client.Step} :
    ∀ {fuel t : Nat} {e : SEvent}, e ∈ (attemptS oracle cancel θ tdir i sd t fuel).events →
      (∃ tk, e = SEvent.attemptBegin i tk) ∨ (∃ key, e = SEvent.press i key) ∨
        (∃ tpl sc, e = SEvent.probe i tpl sc)
  | 0, t, e, h => by simp [attemptS] at h
  | fuel + 1, t, e, h => by
      rw [attemptS] at h
      by_cases hc : cancel t = true
      · rw [if_pos hc] at h
        simp only [List.mem_singleton] at h
        exact Or.inl ⟨t, h⟩
      · rw [if_neg hc] at h
        by_cases hr : (tryOptionsS oracle θ tdir i (t + 1) sd.options).1 = true
        · simp only [hr, if_true] at h
          rcases List.mem_cons.mp h with h2 | h2
          · exact Or.inl ⟨t, h2⟩
          · exact Or.inr (tryOptionsS_events h2)
        · simp only [Bool.not_eq_true] at hr
          simp only [hr, Bool.false_eq_true, if_false] at h
          by_cases hf : fuel = 0
          · rw [if_pos hf] at h
            rcases List.mem_cons.mp h with h2 | h2
            · exact Or.inl ⟨t, h2⟩
            · exact Or.inr (tryOptionsS_events h2)
          · rw [if_neg hf] at h
            rcases List.mem_cons.mp h with h2 | h2
            · exact Or.inl ⟨t, h2⟩
            · rcases List.mem_append.mp h2 with h3 | h3
              · exact Or.inr (tryOptionsS_events h3)
              · exact attemptS_events h3

theorem attemptS_no_stepBegin {oracle : Client.Oracle} {cancel : Cancel} {θ : ℚ}
    {tdir : String} {i : Nat} {sd : Client.Step} {fuel t : Nat} {k tk : Nat}
    (h : SEvent.stepBegin k tk ∈ (attemptS oracle cancel θ tdir i sd t fuel).events) :
    False := by
  rcases attemptS_events h with ⟨tk2, h2⟩ | ⟨key, h2⟩ | ⟨tpl, sc, h2⟩ <;> cases h2

theorem attemptS_press_tag {oracle : Client.Oracle} {cancel : Cancel} {θ : ℚ}
    {tdir : String} {i : Nat} {sd : Client.Step} {fuel t : Nat} {j : Nat} {key : String}
    (h : SEvent.press j key ∈ (attemptS oracle cancel θ tdir i sd t fuel).events) : j = i := by
  rcases attemptS_events h with ⟨tk2, h2⟩ | ⟨key2, h2⟩ | ⟨tpl, sc, h2⟩ <;> cases h2
  rfl

theorem attemptS_attemptBegin {oracle : Client.Oracle} {cancel : Cancel} {θ : ℚ}
    {tdir : String} {i : Nat} {sd : Client.Step} :
    ∀ {fuel t : Nat} {k tk : Nat},
      SEvent.attemptBegin k tk ∈ (attemptS oracle cancel θ tdir i sd t fuel).events →
      cancel tk = true → (attemptS oracle cancel θ tdir i sd t fuel).out =
        AttemptOut.cancelled
  | 0, t, k, tk, h, _ => by simp [attemptS] at h
  | fuel + 1, t, k, tk, h, hct => by
      rw [attemptS] at h ⊢
      by_cases hc : cancel t = true
      · rw [if_pos hc]
      · rw [if_neg hc] at h ⊢
        by_cases hr : (tryOptionsS oracle θ tdir i (t + 1) sd.options).1 = true
        · simp only [hr, if_true] at h ⊢
          exfalso
          rcases List.mem_cons.mp h with h2 | h2
          · obtain ⟨rfl, rfl⟩ : k = i ∧ tk = t := by
              cases h2
              exact ⟨rfl, rfl⟩
            exact hc hct
          · rcases tryOptionsS_events h2 with ⟨key, h3⟩ | ⟨tpl, sc, h3⟩ <;> cases h3
        · simp only [Bool.not_eq_true] at hr
          simp only [hr, Bool.false_eq_true, if_false] at h ⊢
          by_cases hf : fuel = 0
          · rw [if_pos hf] at h ⊢
            exfalso
            rcases List.mem_cons.mp h with h2 | h2
            · obtain ⟨rfl, rfl⟩ : k = i ∧ tk = t := by
                cases h2
                exact ⟨rfl, rfl⟩
              exact hc hct
            · rcases tryOptionsS_events h2 with ⟨key, h3⟩ | ⟨tpl, sc, h3⟩ <;> cases h3
          · rw [if_neg hf] at h ⊢
            rcases List.mem_cons.mp h with h2 | h2
            · obtain ⟨rfl, rfl⟩ : k = i ∧ tk = t := by
                cases h2
                exact ⟨rfl, rfl⟩
              exact absurd hct hc
            · rcases List.mem_append.mp h2 with h3 | h3
              · exfalso
                rcases tryOptionsS_events h3 with ⟨key, h4⟩ | ⟨tpl, sc, h4⟩ <;> cases h4
              · exact attemptS_attemptBegin h3 hct

end SpecNav

namespace SpecNav

theorem recoverS_no_stepBegin {oracle : Client.Oracle} {cancel : Cancel} {θ : ℚ}
    {tdir : String} {maxR prevR i : Nat} {p sd : Client.Step} {t : Nat} {k tk : Nat}
    (h : SEvent.stepBegin k tk ∈ (recoverS oracle cancel θ tdir maxR prevR i p sd t).events) :
    False := by
  simp only [recoverS] at h
  rcases h1 : (attemptS oracle cancel θ tdir (i - 1) p t prevR).out with _ | _ | _ <;>
    simp only [h1] at h
  · rcases List.mem_append.mp h with h2 | h2
    · exact attemptS_no_stepBegin h2
    · exact attemptS_no_stepBegin h2
  · exact attemptS_no_stepBegin h
  · exact attemptS_no_stepBegin h

theorem recoverS_press_tag {oracle : Client.Oracle} {cancel : Cancel} {θ : ℚ}
    {tdir : String} {maxR prevR i : Nat} {p sd : Client.Step} {t : Nat} {j : Nat}
    {key : String}
    (h : SEvent.press j key ∈ (recoverS oracle cancel θ tdir maxR prevR i p sd t).events) :
    j = i - 1 ∨ j = i := by
  simp only [recoverS] at h
  rcases h1 : (attemptS oracle cancel θ tdir (i - 1) p t prevR).out with _ | _ | _ <;>
    simp only [h1] at h
  · rcases List.mem_append.mp h with h2 | h2
    · exact Or.inl (attemptS_press_tag h2)
    · exact Or.inr (attemptS_press_tag h2)
  · exact Or.inl (attemptS_press_tag h)
  · exact Or.inl (attemptS_press_tag h)

theorem recoverS_attemptBegin {oracle : Client.Oracle} {cancel : Cancel} {θ : ℚ}
    {tdir : String} {maxR prevR i : Nat} {p sd : Client.Step} {t : Nat} {k tk : Nat}
    (h : SEvent.attemptBegin k tk ∈
      (recoverS oracle cancel θ tdir maxR prevR i p sd t).events)
    (hct : cancel tk = true) :
    (recoverS oracle cancel θ tdir maxR prevR i p sd t).out = AttemptOut.cancelled := by
  simp only [recoverS] at h ⊢
  rcases h1 : (attemptS oracle cancel θ tdir (i - 1) p t prevR).out with _ | _ | _ <;>
    simp only [h1] at h ⊢
  · rcases List.mem_append.mp h with h2 | h2
    · have h3 := attemptS_attemptBegin h2 hct
      rw [h1] at h3
      cases h3
    · exact attemptS_attemptBegin h2 hct
  · have h3 := attemptS_attemptBegin h hct
    rw [h1] at h3
    cases h3

end SpecNav

namespace SpecNav

theorem execS_cons_cancel {oracle : Client.Oracle} {cancel : Cancel} {θ : ℚ} {tdir : String}
    {maxR prevR t i : Nat} {prev : Option Client.Step} {cf : Nat} {sd : Client.Step}
    {rest : List Client.Step} (hc : cancel t = true) :
    execS oracle cancel θ tdir maxR prevR t i prev cf (sd :: rest) =
      ⟨NavResult.cancelled, t + 1, [SEvent.stepBegin i t]⟩ := by
  simp [execS, hc]

theorem execS_cons_acancel {oracle : Client.Oracle} {cancel : Cancel} {θ : ℚ} {tdir : String}
    {maxR prevR t i : Nat} {prev : Option Client.Step} {cf : Nat} {sd : Client.Step}
    {rest : List Client.Step} (hc : ¬ cancel t = true)
    (hao : (attemptS oracle cancel θ tdir i sd (t + 1) maxR).out = AttemptOut.cancelled) :
    execS oracle cancel θ tdir maxR prevR t i prev cf (sd :: rest) =
      ⟨NavResult.cancelled, (attemptS oracle cancel θ tdir i sd (t + 1) maxR).t,
        SEvent.stepBegin i t :: (attemptS oracle cancel θ tdir i sd (t + 1) maxR).events⟩ := by
  simp [execS, hc, hao]

theorem execS_cons_matched {oracle : Client.Oracle} {cancel : Cancel} {θ : ℚ} {tdir : String}
    {maxR prevR t i : Nat} {prev : Option Client.Step} {cf : Nat} {sd : Client.Step}
    {rest : List Client.Step} (hc : ¬ cancel t = true)
    (hao : (attemptS oracle cancel θ tdir i sd (t + 1) maxR).out = AttemptOut.matched) :
    execS oracle cancel θ tdir maxR prevR t i prev cf (sd :: rest) =
      ⟨(execS oracle cancel θ tdir maxR prevR
          (attemptS oracle cancel θ tdir i sd (t + 1) maxR).t (i + 1) (some sd) 0
          rest).result,
        (execS oracle cancel θ tdir maxR prevR
          (attemptS oracle cancel θ tdir i sd (t + 1) maxR).t (i + 1) (some sd) 0 rest).t,
        SEvent.stepBegin i t :: (attemptS oracle cancel θ tdir i sd (t + 1) maxR).events ++
          (execS oracle cancel θ tdir maxR prevR
            (attemptS oracle cancel θ tdir i sd (t + 1) maxR).t (i + 1) (some sd) 0
            rest).events⟩ := by
  simp [execS, hc, hao]

theorem execS_cons_none_abort {oracle : Client.Oracle} {cancel : Cancel} {θ : ℚ}
    {tdir : String} {maxR prevR t i : Nat} {cf : Nat} {sd : Client.Step}
    {rest : List Client.Step} (hc : ¬ cancel t = true)
    (hao : (attemptS oracle cancel θ tdir i sd (t + 1) maxR).out = AttemptOut.noMatch)
    (h2 : 2 ≤ cf + 1) :
    execS oracle cancel θ tdir maxR prevR t i none cf (sd :: rest) =
      ⟨NavResult.failure, (attemptS oracle cancel θ tdir i sd (t + 1) maxR).t,
        SEvent.stepBegin i t :: (attemptS oracle cancel θ tdir i sd (t + 1) maxR).events⟩ := by
  simp [execS, hc, hao, h2]

theorem execS_cons_none_cont {oracle : Client.Oracle} {cancel : Cancel} {θ : ℚ}
    {tdir : String} {maxR prevR t i : Nat} {cf : Nat} {sd : Client.Step}
    {rest : List Client.Step} (hc : ¬ cancel t = true)
    (hao : (attemptS oracle cancel θ tdir i sd (t + 1) maxR).out = AttemptOut.noMatch)
    (h2 : ¬ 2 ≤ cf + 1) :
    execS oracle cancel θ tdir maxR prevR t i none cf (sd :: rest) =
      ⟨(execS oracle cancel θ tdir maxR prevR
          (attemptS oracle cancel θ tdir i sd (t + 1) maxR).t (i + 1) (some sd) (cf + 1)
          rest).result,
        (execS oracle cancel θ tdir maxR prevR
          (attemptS oracle cancel θ tdir i sd (t + 1) maxR).t (i + 1) (some sd) (cf + 1)
          rest).t,
        SEvent.stepBegin i t :: (attemptS oracle cancel θ tdir i sd (t + 1) maxR).events ++
          (execS oracle cancel θ tdir maxR prevR
            (attemptS oracle cancel θ tdir i sd (t + 1) maxR).t (i + 1) (some sd) (cf + 1)
            rest).events⟩ := by
  simp [execS, hc, hao, h2]

theorem execS_cons_hcancel {oracle : Client.Oracle} {cancel : Cancel} {θ : ℚ}
    {tdir : String} {maxR prevR t i : Nat} {cf : Nat} {p sd : Client.Step}
    {rest : List Client.Step} (hc : ¬ cancel t = true)
    (hao : (attemptS oracle cancel θ tdir i sd (t + 1) maxR).out = AttemptOut.noMatch)
    (hho : (recoverS oracle cancel θ tdir maxR prevR i p sd
        (attemptS oracle cancel θ tdir i sd (t + 1) maxR).t).out = AttemptOut.cancelled) :
    execS oracle cancel θ tdir maxR prevR t i (some p) cf (sd :: rest) =
      ⟨NavResult.cancelled,
        (recoverS oracle cancel θ tdir maxR prevR i p sd
          (attemptS oracle cancel θ tdir i sd (t + 1) maxR).t).t,
        SEvent.stepBegin i t :: (attemptS oracle cancel θ tdir i sd (t + 1) maxR).events ++
          (recoverS oracle cancel θ tdir maxR prevR i p sd
            (attemptS oracle cancel θ tdir i sd (t + 1) maxR).t).events⟩ := by
  simp [execS, hc, hao, hho]

theorem execS_cons_hmatched {oracle : Client.Oracle} {cancel : Cancel} {θ : ℚ}
    {tdir : String} {maxR prevR t i : Nat} {cf : Nat} {p sd : Client.Step}
    {rest : List Client.Step} (hc : ¬ cancel t = true)
    (hao : (attemptS oracle cancel θ tdir i sd (t + 1) maxR).out = AttemptOut.noMatch)
    (hho : (recoverS oracle cancel θ tdir maxR prevR i p sd
        (attemptS oracle cancel θ tdir i sd (t + 1) maxR).t).out = AttemptOut.matched) :
    execS oracle cancel θ tdir maxR prevR t i (some p) cf (sd :: rest) =
      ⟨(execS oracle cancel θ tdir maxR prevR
          (recoverS oracle cancel θ tdir maxR prevR i p sd
            (attemptS oracle cancel θ tdir i sd (t + 1) maxR).t).t (i + 1) (some sd) 0
          rest).result,
        (execS oracle cancel θ tdir maxR prevR
          (recoverS oracle cancel θ tdir maxR prevR i p sd
            (attemptS oracle cancel θ tdir i sd (t + 1) maxR).t).t (i + 1) (some sd) 0
          rest).t,
        SEvent.stepBegin i t :: (attemptS oracle cancel θ tdir i sd (t + 1) maxR).events ++
          (recoverS oracle cancel θ tdir maxR prevR i p sd
            (attemptS oracle cancel θ tdir i sd (t + 1) maxR).t).events ++
          (execS oracle cancel θ tdir maxR prevR
            (recoverS oracle cancel θ tdir maxR prevR i p sd
              (attemptS oracle cancel θ tdir i sd (t + 1) maxR).t).t (i + 1) (some sd) 0
            rest).events⟩ := by
  simp [execS, hc, hao, hho]

theorem execS_cons_hnm_abort {oracle : Client.Oracle} {cancel : Cancel} {θ : ℚ}
    {tdir : String} {maxR prevR t i : Nat} {cf : Nat} {p sd : Client.Step}
    {rest : List Client.Step} (hc : ¬ cancel t = true)
    (hao : (attemptS oracle cancel θ tdir i sd (t + 1) maxR).out = AttemptOut.noMatch)
    (hho : (recoverS oracle cancel θ tdir maxR prevR i p sd
        (attemptS oracle cancel θ tdir i sd (t + 1) maxR).t).out = AttemptOut.noMatch)
    (h2 : 2 ≤ cf + 1) :
    execS oracle cancel θ tdir maxR prevR t i (some p) cf (sd :: rest) =
      ⟨NavResult.failure,
        (recoverS oracle cancel θ tdir maxR prevR i p sd
          (attemptS oracle cancel θ tdir i sd (t + 1) maxR).t).t,
        SEvent.stepBegin i t :: (attemptS oracle cancel θ tdir i sd (t + 1) maxR).events ++
          (recoverS oracle cancel θ tdir maxR prevR i p sd
            (attemptS oracle cancel θ tdir i sd (t + 1) maxR).t).events⟩ := by
  simp [execS, hc, hao, hho, h2]

theorem execS_cons_hnm_cont {oracle : Client.Oracle} {cancel : Cancel} {θ : ℚ}
    {tdir : String} {maxR prevR t i : Nat} {cf : Nat} {p sd : Client.Step}
    {rest : List Client.Step} (hc : ¬ cancel t = true)
    (hao : (attemptS oracle cancel θ tdir i sd (t + 1) maxR).out = AttemptOut.noMatch)
    (hho : (recoverS oracle cancel θ tdir maxR prevR i p sd
        (attemptS oracle cancel θ tdir i sd (t + 1) maxR).t).out = AttemptOut.noMatch)
    (h2 : ¬ 2 ≤ cf + 1) :
    execS oracle cancel θ tdir maxR prevR t i (some p) cf (sd :: rest) =
      ⟨(execS oracle cancel θ tdir maxR prevR
          (recoverS oracle cancel θ tdir maxR prevR i p sd
            (attemptS oracle cancel θ tdir i sd (t + 1) maxR).t).t (i + 1) (some sd) (cf + 1)
          rest).result,
        (execS oracle cancel θ tdir maxR prevR
          (recoverS oracle cancel θ tdir maxR prevR i p sd
            (attemptS oracle cancel θ tdir i sd (t + 1) maxR).t).t (i + 1) (some sd) (cf + 1)
          rest).t,
        SEvent.stepBegin i t :: (attemptS oracle cancel θ tdir i sd (t + 1) maxR).events ++
          (recoverS oracle cancel θ tdir maxR prevR i p sd
            (attemptS oracle cancel θ tdir i sd (t + 1) maxR).t).events ++
          (execS oracle cancel θ tdir maxR prevR
            (recoverS oracle cancel θ tdir maxR prevR i p sd
              (attemptS oracle cancel θ tdir i sd (t + 1) maxR).t).t (i + 1) (some sd)
            (cf + 1) rest).events⟩ := by
  simp [execS, hc, hao, hho, h2]

end SpecNav

namespace SpecNav

set_option maxHeartbeats 1600000 in
theorem execS_cancel {oracle : Client.Oracle} {cancel : Cancel} {θ : ℚ} {tdir : String}
    {maxR prevR : Nat} :
    ∀ {steps : List Client.Step} {t i : Nat} {prev : Option Client.Step} {cf : Nat},
      (∀ k tk, SEvent.stepBegin k tk ∈
          (execS oracle cancel θ tdir maxR prevR t i prev cf steps).events →
        i ≤ k ∧ (cancel tk = true →
          (execS oracle cancel θ tdir maxR prevR t i prev cf steps).result =
              NavResult.cancelled ∧
            ∀ j key, SEvent.press j key ∈
                (execS oracle cancel θ tdir maxR prevR t i prev cf steps).events →
              j < k)) ∧
      (∀ k tk, SEvent.attemptBegin k tk ∈
          (execS oracle cancel θ tdir maxR prevR t i prev cf steps).events →
        cancel tk = true →
        (execS oracle cancel θ tdir maxR prevR t i prev cf steps).result =
          NavResult.cancelled)
  | [], t, i, prev, cf => by
      constructor
      · intro k tk hmem
        simp [execS] at hmem
      · intro k tk hmem
        simp [execS] at hmem
  | sd :: rest, t, i, prev, cf => by
      by_cases hc : cancel t = true
      · rw [execS_cons_cancel hc]
        constructor
        · intro k tk hmem
          simp only [List.mem_singleton, SEvent.stepBegin.injEq] at hmem
          obtain ⟨rfl, rfl⟩ := hmem
          refine ⟨le_rfl, fun _ => ⟨rfl, ?_⟩⟩
          intro j key hp
          simp only [List.mem_singleton] at hp
          cases hp
        · intro k tk hmem
          simp only [List.mem_singleton] at hmem
          cases hmem
      · rcases hao : (attemptS oracle cancel θ tdir i sd (t + 1) maxR).out with _ | _ | _
        · -- attempt matched
          rw [execS_cons_matched hc hao]
          have IH := @execS_cancel oracle cancel θ tdir maxR prevR rest
            (attemptS oracle cancel θ tdir i sd (t + 1) maxR).t (i + 1) (some sd) 0
          constructor
          · intro k tk hmem
            simp only [List.mem_cons, List.mem_append, SEvent.stepBegin.injEq] at hmem
            rcases hmem with (⟨rfl, rfl⟩ | hmem) | hmem
            · exact ⟨le_rfl, fun hck => absurd hck hc⟩
            · exact (attemptS_no_stepBegin hmem).elim
            · obtain ⟨hik, hrest⟩ := IH.1 k tk hmem
              refine ⟨by omega, fun hck => ?_⟩
              obtain ⟨hres, hpress⟩ := hrest hck
              refine ⟨hres, ?_⟩
              intro j key hp
              simp only [List.mem_cons, List.mem_append] at hp
              rcases hp with (hp | hp) | hp
              · cases hp
              · have hj := attemptS_press_tag hp
                omega
              · exact hpress j key hp
          · intro k tk hmem hck
            simp only [List.mem_cons, List.mem_append] at hmem
            rcases hmem with (hmem | hmem) | hmem
            · cases hmem
            · have h3 := attemptS_attemptBegin hmem hck
              rw [hao] at h3
              cases h3
            · exact IH.2 k tk hmem hck
        · -- attempt did not match: recovery or abort, by previous step
          rcases prev with _ | p
          · by_cases h2 : 2 ≤ cf + 1
            · rw [execS_cons_none_abort hc hao h2]
              constructor
              · intro k tk hmem
                simp only [List.mem_cons, SEvent.stepBegin.injEq] at hmem
                rcases hmem with ⟨rfl, rfl⟩ | hmem
                · exact ⟨le_rfl, fun hck => absurd hck hc⟩
                · exact (attemptS_no_stepBegin hmem).elim
              · intro k tk hmem hck
                simp only [List.mem_cons] at hmem
                rcases hmem with hmem | hmem
                · cases hmem
                · have h3 := attemptS_attemptBegin hmem hck
                  rw [hao] at h3
                  cases h3
            · rw [execS_cons_none_cont hc hao h2]
              have IH := @execS_cancel oracle cancel θ tdir maxR prevR rest
                (attemptS oracle cancel θ tdir i sd (t + 1) maxR).t (i + 1) (some sd) (cf + 1)
              constructor
              · intro k tk hmem
                simp only [List.mem_cons, List.mem_append, SEvent.stepBegin.injEq] at hmem
                rcases hmem with (⟨rfl, rfl⟩ | hmem) | hmem
                · exact ⟨le_rfl, fun hck => absurd hck hc⟩
                · exact (attemptS_no_stepBegin hmem).elim
                · obtain ⟨hik, hrest⟩ := IH.1 k tk hmem
                  refine ⟨by omega, fun hck => ?_⟩
                  obtain ⟨hres, hpress⟩ := hrest hck
                  refine ⟨hres, ?_⟩
                  intro j key hp
                  simp only [List.mem_cons, List.mem_append] at hp
                  rcases hp with (hp | hp) | hp
                  · cases hp
                  · have hj := attemptS_press_tag hp
                    omega
                  · exact hpress j key hp
              · intro k tk hmem hck
                simp only [List.mem_cons, List.mem_append] at hmem
                rcases hmem with (hmem | hmem) | hmem
                · cases hmem
                · have h3 := attemptS_attemptBegin hmem hck
                  rw [hao] at h3
                  cases h3
                · exact IH.2 k tk hmem hck
          · rcases hho : (recoverS oracle cancel θ tdir maxR prevR i p sd
                (attemptS oracle cancel θ tdir i sd (t + 1) maxR).t).out with _ | _ | _
            · -- recovery matched
              rw [execS_cons_hmatched hc hao hho]
              have IH := @execS_cancel oracle cancel θ tdir maxR prevR rest
                (recoverS oracle cancel θ tdir maxR prevR i p sd
                  (attemptS oracle cancel θ tdir i sd (t + 1) maxR).t).t (i + 1) (some sd) 0
              constructor
              · intro k tk hmem
                simp only [List.mem_cons, List.mem_append, SEvent.stepBegin.injEq] at hmem
                rcases hmem with ((⟨rfl, rfl⟩ | hmem) | hmem) | hmem
                · exact ⟨le_rfl, fun hck => absurd hck hc⟩
                · exact (attemptS_no_stepBegin hmem).elim
                · exact (recoverS_no_stepBegin hmem).elim
                · obtain ⟨hik, hrest⟩ := IH.1 k tk hmem
                  refine ⟨by omega, fun hck => ?_⟩
                  obtain ⟨hres, hpress⟩ := hrest hck
                  refine ⟨hres, ?_⟩
                  intro j key hp
                  simp only [List.mem_cons, List.mem_append] at hp
                  rcases hp with ((hp | hp) | hp) | hp
                  · cases hp
                  · have hj := attemptS_press_tag hp
                    omega
                  · have hj := recoverS_press_tag hp
                    rcases hj with hj | hj <;> omega
                  · exact hpress j key hp
              · intro k tk hmem hck
                simp only [List.mem_cons, List.mem_append] at hmem
                rcases hmem with ((hmem | hmem) | hmem) | hmem
                · cases hmem
                · have h3 := attemptS_attemptBegin hmem hck
                  rw [hao] at h3
                  cases h3
                · have h3 := recoverS_attemptBegin hmem hck
                  rw [hho] at h3
                  cases h3
                · exact IH.2 k tk hmem hck
            · -- recovery failed too
              by_cases h2 : 2 ≤ cf + 1
              · rw [execS_cons_hnm_abort hc hao hho h2]
                constructor
                · intro k tk hmem
                  simp only [List.mem_cons, List.mem_append, SEvent.stepBegin.injEq] at hmem
                  rcases hmem with (⟨rfl, rfl⟩ | hmem) | hmem
                  · exact ⟨le_rfl, fun hck => absurd hck hc⟩
                  · exact (attemptS_no_stepBegin hmem).elim
                  · exact (recoverS_no_stepBegin hmem).elim
                · intro k tk hmem hck
                  simp only [List.mem_cons, List.mem_append] at hmem
                  rcases hmem with (hmem | hmem) | hmem
                  · cases hmem
                  · have h3 := attemptS_attemptBegin hmem hck
                    rw [hao] at h3
                    cases h3
                  · have h3 := recoverS_attemptBegin hmem hck
                    rw [hho] at h3
                    cases h3
              · rw [execS_cons_hnm_cont hc hao hho h2]
                have IH := @execS_cancel oracle cancel θ tdir maxR prevR rest
                  (recoverS oracle cancel θ tdir maxR prevR i p sd
                    (attemptS oracle cancel θ tdir i sd (t + 1) maxR).t).t (i + 1) (some sd)
                  (cf + 1)
                constructor
                · intro k tk hmem
                  simp only [List.mem_cons, List.mem_append, SEvent.stepBegin.injEq] at hmem
                  rcases hmem with ((⟨rfl, rfl⟩ | hmem) | hmem) | hmem
                  · exact ⟨le_rfl, fun hck => absurd hck hc⟩
                  · exact (attemptS_no_stepBegin hmem).elim
                  · exact (recoverS_no_stepBegin hmem).elim
                  · obtain ⟨hik, hrest⟩ := IH.1 k tk hmem
                    refine ⟨by omega, fun hck => ?_⟩
                    obtain ⟨hres, hpress⟩ := hrest hck
                    refine ⟨hres, ?_⟩
                    intro j key hp
                    simp only [List.mem_cons, List.mem_append] at hp
                    rcases hp with ((hp | hp) | hp) | hp
                    · cases hp
                    · have hj := attemptS_press_tag hp
                      omega
                    · have hj := recoverS_press_tag hp
                      rcases hj with hj | hj <;> omega
                    · exact hpress j key hp
                · intro k tk hmem hck
                  simp only [List.mem_cons, List.mem_append] at hmem
                  rcases hmem with ((hmem | hmem) | hmem) | hmem
                  · cases hmem
                  · have h3 := attemptS_attemptBegin hmem hck
                    rw [hao] at h3
                    cases h3
                  · have h3 := recoverS_attemptBegin hmem hck
                    rw [hho] at h3
                    cases h3
                  · exact IH.2 k tk hmem hck
            · -- recovery observed the cancellation
              rw [execS_cons_hcancel hc hao hho]
              constructor
              · intro k tk hmem
                simp only [List.mem_cons, List.mem_append, SEvent.stepBegin.injEq] at hmem
                rcases hmem with (⟨rfl, rfl⟩ | hmem) | hmem
                · exact ⟨le_rfl, fun hck => absurd hck hc⟩
                · exact (attemptS_no_stepBegin hmem).elim
                · exact (recoverS_no_stepBegin hmem).elim
              · intro k tk _ _
                rfl
        · -- attempt observed the cancellation
          rw [execS_cons_acancel hc hao]
          constructor
          · intro k tk hmem
            simp only [List.mem_cons, SEvent.stepBegin.injEq] at hmem
            rcases hmem with ⟨rfl, rfl⟩ | hmem
            · exact ⟨le_rfl, fun hck => absurd hck hc⟩
            · exact (attemptS_no_stepBegin hmem).elim
          · intro k tk _ _
            rfl

end SpecNav

/-- C1: in the cancellation-aware engine (modelled from the spec, the
cancellation-capable navigator invoked by `launcher.launch` with a
`cancel_event` not being present under `src/`), if the cancellation signal
is set at the poll with which step `k` begins, the run returns the
cancelled result — distinguishable from the ordinary failure result — and
no key press of step `k` or of any later step is ever performed; moreover
any attempt-level poll (the check at the start of every attempt inside the
option loop) that reads the signal as set likewise forces the cancelled
result. -/
theorem C1_cancel_precedence (oracle : Client.Oracle) (cancel : SpecNav.Cancel) (θ : ℚ)
    (tdir : String) (maxR prevR : Nat) (steps : List Client.Step) (k tk : Nat)
    (h : SpecNav.SEvent.stepBegin k tk ∈
      (SpecNav.execute_with_cancel oracle cancel θ tdir maxR prevR steps).events)
    (hck : cancel tk = true) :
    (SpecNav.execute_with_cancel oracle cancel θ tdir maxR prevR steps).result =
        SpecNav.NavResult.cancelled ∧
      (∀ j key, SpecNav.SEvent.press j key ∈
          (SpecNav.execute_with_cancel oracle cancel θ tdir maxR prevR steps).events →
        j < k) ∧
      (∀ m tm, SpecNav.SEvent.attemptBegin m tm ∈
          (SpecNav.execute_with_cancel oracle cancel θ tdir maxR prevR steps).events →
        cancel tm = true →
        (SpecNav.execute_with_cancel oracle cancel θ tdir maxR prevR steps).result =
          SpecNav.NavResult.cancelled) ∧
      SpecNav.NavResult.cancelled ≠ SpecNav.NavResult.failure := by
  have H := @SpecNav.execS_cancel oracle cancel θ tdir maxR prevR steps 0 0 none 0
  obtain ⟨hres, hpress⟩ := (H.1 k tk h).2 hck
  exact ⟨hres, hpress, fun m tm hm hcm => H.2 m tm hm hcm, by decide⟩

/-- Witness for C1: with the stop flag raised before the run starts, the
one-step sequence returns the cancelled result after the very first
step-begin poll, having pressed nothing. -/
theorem C1_cancel_precedence_witness :
    (SpecNav.execute_with_cancel Client.oracleZero SpecNav.cancelAlways 1 "d" 1 1
        [Client.overrideStep]).result = SpecNav.NavResult.cancelled ∧
      (∀ j key, SpecNav.SEvent.press j key ∈
          (SpecNav.execute_with_cancel Client.oracleZero SpecNav.cancelAlways 1 "d" 1 1
            [Client.overrideStep]).events →
        j < 0) ∧
      (∀ m tm, SpecNav.SEvent.attemptBegin m tm ∈
          (SpecNav.execute_with_cancel Client.oracleZero SpecNav.cancelAlways 1 "d" 1 1
            [Client.overrideStep]).events →
        SpecNav.cancelAlways tm = true →
        (SpecNav.execute_with_cancel Client.oracleZero SpecNav.cancelAlways 1 "d" 1 1
            [Client.overrideStep]).result = SpecNav.NavResult.cancelled) ∧
      SpecNav.NavResult.cancelled ≠ SpecNav.NavResult.failure :=
  C1_cancel_precedence Client.oracleZero SpecNav.cancelAlways 1 "d" 1 1
    [Client.overrideStep] 0 0 (by decide) (by decide)
